import Mathlib

/-!
FontSystem: a shallow embedding of the text layout engine.

Source: `Code/FontSystem.h`, `Code/FontSystem.cpp`.

Modelling conventions.

* `GLfloat` quantities are exact rationals (`ℚ`) in the layout code.  Two parts are
  embedded a second time with other values: the configuration setters over `GLfloat`
  values with infinities and NaN, and the text length over a type of values with the
  arithmetic operations as parameters, so that rounding is covered.
* FreeType integer metrics (`FT_Pos`) are `Int`; glyph indices and character codes are `Nat`.
* A glyph chain (`GlyphLink*` threaded through `nextGlyphLink`) is a `List GlyphLink`;
  the null pointer is the empty list.  A `Glyph*` that may be null is an `Option Glyph`.
* `std::map` containers are association lists searched with `List.lookup`.
* OpenGL and FreeType calls have no counterpart here; only the values the layout code
  computes are kept.
-/

namespace FontSys

/-! ## Data model -/

/-- The fields of `FT_Glyph_Metrics` read by the layout code. -/
structure FT_Glyph_Metrics where
  width : Int
  height : Int
  horiBearingX : Int
  horiBearingY : Int
  horiAdvance : Int
  deriving DecidableEq

/-- The kerning vector `FT_Vector`. -/
structure FT_Vector where
  x : Int
  y : Int
  deriving DecidableEq

/-- Class `FontSys::Glyph` (`FontSystem.h`, 152-173). -/
structure Glyph where
  texture : Nat
  metrics : FT_Glyph_Metrics
  glyphIndex : Nat
  charCode : Nat
  deriving DecidableEq

/-- Struct `Font::GlyphLink` (`FontSystem.h`, 118-127); `nextGlyphLink` is the tail of the list. -/
structure GlyphLink where
  dx : ℚ
  dy : ℚ
  x : ℚ
  y : ℚ
  w : ℚ
  h : ℚ
  glyph : Option Glyph
  deriving DecidableEq

/-- Enum `System::Justification`. -/
inductive Justification where
  | JUSTIFY_LEFT
  | JUSTIFY_RIGHT
  | JUSTIFY_CENTER
  | JUSTIFY_LEFT_AND_RIGHT
  deriving DecidableEq

/-- The configuration fields of class `FontSys::System` (`FontSystem.h`, 91-96). -/
structure System where
  initialized : Bool
  font : String
  lineWidth : ℚ
  lineHeight : ℚ
  baseLineDelta : ℚ
  justification : Justification
  wordWrap : Bool
  deriving DecidableEq

namespace System

/-- Constructor `System::System` (`FontSystem.cpp`, 14-23). -/
def new : System :=
  { initialized := false
    font := "ChanticleerRomanNF.ttf"
    lineWidth := 0
    lineHeight := 5
    baseLineDelta := -7
    justification := Justification.JUSTIFY_LEFT
    wordWrap := false }

/-- Method `System::SetBaseLineDelta` (`FontSystem.cpp`, 30-40): the returned flag and the
state after the call. -/
def SetBaseLineDelta (s : System) (baseLineDelta : ℚ) : Bool × System :=
  if baseLineDelta ≥ 0 then (false, s)
  else if -baseLineDelta < s.lineHeight then (false, s)
  else (true, { s with baseLineDelta := baseLineDelta })

/-- Inline setter `SetJustification` (`FontSystem.h`, 48). -/
def SetJustification (s : System) (justification : Justification) : System :=
  { s with justification := justification }

/-- Inline setter `SetLineWidth` (`FontSystem.h`, 51). -/
def SetLineWidth (s : System) (lineWidth : ℚ) : System :=
  { s with lineWidth := lineWidth }

/-- Inline setter `SetLineHeight` (`FontSystem.h`, 54). -/
def SetLineHeight (s : System) (lineHeight : ℚ) : System :=
  { s with lineHeight := lineHeight }

/-- Inline setter `SetFont` (`FontSystem.h`, 60). -/
def SetFont (s : System) (font : String) : System :=
  { s with font := font }

/-- Inline setter `SetWordWrap` (`FontSystem.h`, 63). -/
def SetWordWrap (s : System) (wordWrap : Bool) : System :=
  { s with wordWrap := wordWrap }

end System

/-! ## The configuration with `GLfloat` members

The setters of `System` take any `GLfloat`, an infinity or a NaN included, and only store
and compare it.  For the claims about what the setters accept, the configuration is
embedded a second time with members that range over all these values. -/

/-- A `GLfloat` as the setters see it: a finite value, an infinity or a NaN.  The finite
values are taken from `ℚ`, which has every finite `GLfloat` in it; the two zeros compare
equal and are one value. -/
inductive GLfloat where
  | finite (value : ℚ)
  | posInf
  | negInf
  | nan
  deriving DecidableEq

namespace GLfloat

/-- Unary minus. -/
def neg : GLfloat → GLfloat
  | finite value => finite (-value)
  | posInf => negInf
  | negInf => posInf
  | nan => nan

/-- The comparison `a < b`: false when either side is a NaN. -/
def lt : GLfloat → GLfloat → Bool
  | finite a, finite b => decide (a < b)
  | finite _, posInf => true
  | negInf, finite _ => true
  | negInf, posInf => true
  | _, _ => false

/-- The comparison `a >= b`: false when either side is a NaN. -/
def ge : GLfloat → GLfloat → Bool
  | finite a, finite b => decide (a ≥ b)
  | finite _, negInf => true
  | posInf, finite _ => true
  | posInf, posInf => true
  | posInf, negInf => true
  | negInf, negInf => true
  | _, _ => false

/-- The absolute value. -/
def abs : GLfloat → GLfloat
  | finite value => finite |value|
  | posInf => posInf
  | negInf => posInf
  | nan => nan

end GLfloat

/-- The configuration fields of class `FontSys::System` (`FontSystem.h`, 91-96) with
`GLfloat` members. -/
structure GLSystem where
  initialized : Bool
  font : String
  lineWidth : GLfloat
  lineHeight : GLfloat
  baseLineDelta : GLfloat
  justification : Justification
  wordWrap : Bool
  deriving DecidableEq

namespace GLSystem

/-- Constructor `System::System` (`FontSystem.cpp`, 14-23). -/
def new : GLSystem :=
  { initialized := false
    font := "ChanticleerRomanNF.ttf"
    lineWidth := GLfloat.finite 0
    lineHeight := GLfloat.finite 5
    baseLineDelta := GLfloat.finite (-7)
    justification := Justification.JUSTIFY_LEFT
    wordWrap := false }

/-- Method `System::SetBaseLineDelta` (`FontSystem.cpp`, 30-40): the returned flag and the
state after the call. -/
def SetBaseLineDelta (s : GLSystem) (baseLineDelta : GLfloat) : Bool × GLSystem :=
  if GLfloat.ge baseLineDelta (GLfloat.finite 0) then (false, s)
  else if GLfloat.lt (GLfloat.neg baseLineDelta) s.lineHeight then (false, s)
  else (true, { s with baseLineDelta := baseLineDelta })

/-- Inline setter `SetJustification` (`FontSystem.h`, 48). -/
def SetJustification (s : GLSystem) (justification : Justification) : GLSystem :=
  { s with justification := justification }

/-- Inline setter `SetLineWidth` (`FontSystem.h`, 51). -/
def SetLineWidth (s : GLSystem) (lineWidth : GLfloat) : GLSystem :=
  { s with lineWidth := lineWidth }

/-- Inline setter `SetLineHeight` (`FontSystem.h`, 54). -/
def SetLineHeight (s : GLSystem) (lineHeight : GLfloat) : GLSystem :=
  { s with lineHeight := lineHeight }

/-- Inline setter `SetFont` (`FontSystem.h`, 60). -/
def SetFont (s : GLSystem) (font : String) : GLSystem :=
  { s with font := font }

/-- Inline setter `SetWordWrap` (`FontSystem.h`, 63). -/
def SetWordWrap (s : GLSystem) (wordWrap : Bool) : GLSystem :=
  { s with wordWrap := wordWrap }

/-- The configuration with finite members as a configuration with `GLfloat` members. -/
def ofSystem (s : System) : GLSystem :=
  { initialized := s.initialized
    font := s.font
    lineWidth := GLfloat.finite s.lineWidth
    lineHeight := GLfloat.finite s.lineHeight
    baseLineDelta := GLfloat.finite s.baseLineDelta
    justification := s.justification
    wordWrap := s.wordWrap }

/-- The invariant claimed for the configuration: `baseLineDelta` is negative and its
absolute value is at least `lineHeight`. -/
def baseLineConstraint (s : GLSystem) : Prop :=
  GLfloat.lt s.baseLineDelta (GLfloat.finite 0) = true ∧
    GLfloat.ge (GLfloat.abs s.baseLineDelta) s.lineHeight = true

/-- The constraint in the form `SetBaseLineDelta` tests it: neither of its two guards,
`baseLineDelta >= 0` and `-baseLineDelta < lineHeight`, holds of the state. -/
def passesGuards (s : GLSystem) : Prop :=
  GLfloat.ge s.baseLineDelta (GLfloat.finite 0) = false ∧
    GLfloat.lt (GLfloat.neg s.baseLineDelta) s.lineHeight = false

end GLSystem

/-- One call of a public setter of `System`, with any `GLfloat` as argument. -/
inductive SetterCall where
  | setLineWidth (lineWidth : GLfloat)
  | setLineHeight (lineHeight : GLfloat)
  | setBaseLineDelta (baseLineDelta : GLfloat)
  | setJustification (justification : Justification)
  | setWordWrap (wordWrap : Bool)
  | setFont (font : String)

/-- The state after one setter call. -/
def SetterCall.apply (s : GLSystem) : SetterCall → GLSystem
  | .setLineWidth v => s.SetLineWidth v
  | .setLineHeight v => s.SetLineHeight v
  | .setBaseLineDelta v => (s.SetBaseLineDelta v).2
  | .setJustification v => s.SetJustification v
  | .setWordWrap v => s.SetWordWrap v
  | .setFont v => s.SetFont v

/-- The state reached from `s` by a sequence of setter calls, in order. -/
def runSetters (s : GLSystem) (calls : List SetterCall) : GLSystem :=
  calls.foldl SetterCall.apply s

/-! ## Fonts and glyph chains -/

/-- The data members of class `FontSys::Font` read or written by layout
(`FontSystem.h`, 144-149).  A text is the list of its wide character codes. -/
structure Font where
  initialized : Bool
  glyphMap : List (Nat × Glyph)
  kerningMap : List (Nat × FT_Vector)
  textDisplayListMap : List (List Nat × Nat)
  lineHeightMetric : Nat

/-- The character code of a blank, `' '`. -/
def spaceCharCode : Nat := 32

/-- A freshly allocated link, `new GlyphLink()`, with its `glyph` member assigned. -/
def GlyphLink.fresh (glyph : Option Glyph) : GlyphLink :=
  { dx := 0, dy := 0, x := 0, y := 0, w := 0, h := 0, glyph := glyph }

/-- Method `Font::GlyphLink::GetMetrics` (`FontSystem.cpp`, 536-546): the metrics of the
glyph, or the zeroed metrics with `width = height = 500` when there is no glyph. -/
def GlyphLink.GetMetrics (glyphLink : GlyphLink) : FT_Glyph_Metrics :=
  match glyphLink.glyph with
  | some glyph => glyph.metrics
  | none => { width := 500, height := 500, horiBearingX := 0, horiBearingY := 0, horiAdvance := 0 }

/-- The test `!glyphLink->glyph || glyphLink->glyph->GetCharCode() == ' '` used by
`BreakGlyphChain` (695) and by the wrap loop of `DrawText` (437). -/
def GlyphLink.noGlyphOrSpace (glyphLink : GlyphLink) : Bool :=
  match glyphLink.glyph with
  | none => true
  | some glyph => glyph.charCode == spaceCharCode

/-- The test `glyphLink->glyph && glyphLink->glyph->GetCharCode() == charCode` used by
`CountGlyphsInChain` (762) and `JustifyGlyphChain` (744). -/
def GlyphLink.hasCharCode (glyphLink : GlyphLink) (charCode : Nat) : Bool :=
  match glyphLink.glyph with
  | none => false
  | some glyph => glyph.charCode == charCode

/-- Method `Font::CalcConversionFactor` (`FontSystem.cpp`, 531-534). -/
def Font.CalcConversionFactor (fontSystem : System) (font : Font) : ℚ :=
  fontSystem.lineHeight / (font.lineHeightMetric : ℚ)

/-- The body of the loop of `Font::GenerateGlyphChain` for one character
(`FontSystem.cpp`, 555-593): the link built for `charCode`, where `prevGlyphLink` is the
link built in the previous iteration, or `none` in the first. -/
def GenerateGlyphChain.link (glyphMap : List (Nat × Glyph)) (conversionFactor : ℚ)
    (prevGlyphLink : Option GlyphLink) (charCode : Nat) : GlyphLink :=
  let glyphLink := GlyphLink.fresh (glyphMap.lookup charCode)
  let metrics := glyphLink.GetMetrics
  let glyphLink := { glyphLink with
    w := (metrics.width : ℚ) * conversionFactor
    h := (metrics.height : ℚ) * conversionFactor }
  match prevGlyphLink with
  | none => { glyphLink with
      dx := 0
      dy := 0
      x := 0
      y := ((metrics.horiBearingY - metrics.height : Int) : ℚ) * conversionFactor }
  | some prev => { glyphLink with
      dx := (prev.GetMetrics.horiAdvance : ℚ) * conversionFactor
      dy := 0
      x := (metrics.horiBearingX : ℚ) * conversionFactor
      y := ((metrics.horiBearingY - metrics.height : Int) : ℚ) * conversionFactor }

/-- The loop of `Font::GenerateGlyphChain` (`FontSystem.cpp`, 553-596).  The string is
read up to its terminating `'\0'`, which is either a zero code or the end of the list. -/
def GenerateGlyphChain.loop (glyphMap : List (Nat × Glyph)) (conversionFactor : ℚ) :
    Option GlyphLink → List Nat → List GlyphLink
  | _, [] => []
  | prevGlyphLink, charCode :: rest =>
    if charCode = 0 then []
    else
      let glyphLink := GenerateGlyphChain.link glyphMap conversionFactor prevGlyphLink charCode
      glyphLink :: GenerateGlyphChain.loop glyphMap conversionFactor (some glyphLink) rest

/-- Method `Font::GenerateGlyphChain` (`FontSystem.cpp`, 548-599).  The empty list is the
null pointer returned for a string with no character. -/
def GenerateGlyphChain (glyphMap : List (Nat × Glyph)) (charCodeString : List Nat)
    (conversionFactor : ℚ) : List GlyphLink :=
  GenerateGlyphChain.loop glyphMap conversionFactor none charCodeString

/-- Method `Font::MakeKerningKey` (`FontSystem.cpp`, 364-372), with the 32-bit `FT_ULong`
of the Windows build the source targets. -/
def MakeKerningKey (leftGlyphIndex rightGlyphIndex : Nat) : Nat :=
  let left := leftGlyphIndex % 2 ^ 32
  let right := rightGlyphIndex % 2 ^ 32
  let left := (left <<< 16) % 2 ^ 32
  left ||| right

/-- The body of the loop of `Font::KernGlyphChain` for one link (`FontSystem.cpp`, 607-616). -/
def KernGlyphChain.kern (kerningMap : List (Nat × FT_Vector)) (conversionFactor : ℚ)
    (prevGlyphLink : Option GlyphLink) (glyphLink : GlyphLink) : GlyphLink :=
  match prevGlyphLink with
  | none => glyphLink
  | some prev =>
    match prev.glyph, glyphLink.glyph with
    | some prevGlyph, some glyph =>
      match kerningMap.lookup (MakeKerningKey prevGlyph.glyphIndex glyph.glyphIndex) with
      | some kerning => { glyphLink with dx := glyphLink.dx + (kerning.x : ℚ) * conversionFactor }
      | none => glyphLink
    | _, _ => glyphLink

/-- The loop of `Font::KernGlyphChain` (`FontSystem.cpp`, 605-620). -/
def KernGlyphChain.loop (kerningMap : List (Nat × FT_Vector)) (conversionFactor : ℚ) :
    Option GlyphLink → List GlyphLink → List GlyphLink
  | _, [] => []
  | prevGlyphLink, glyphLink :: rest =>
    let glyphLink := KernGlyphChain.kern kerningMap conversionFactor prevGlyphLink glyphLink
    glyphLink :: KernGlyphChain.loop kerningMap conversionFactor (some glyphLink) rest

/-- Method `Font::KernGlyphChain` (`FontSystem.cpp`, 601-621): the chain after the call. -/
def KernGlyphChain (kerningMap : List (Nat × FT_Vector)) (glyphLink : List GlyphLink)
    (conversionFactor : ℚ) : List GlyphLink :=
  KernGlyphChain.loop kerningMap conversionFactor none glyphLink

/-- The loop of `Font::CalcGlyphChainLength` (`FontSystem.cpp`, 663-671). -/
def CalcGlyphChainLength.loop : ℚ → List GlyphLink → ℚ
  | length, [] => length
  | length, [glyphLink] => length + (glyphLink.x + glyphLink.w)
  | length, _ :: next :: rest => CalcGlyphChainLength.loop (length + next.dx) (next :: rest)

/-- Method `Font::CalcGlyphChainLength` (`FontSystem.cpp`, 659-674). -/
def CalcGlyphChainLength (glyphLink : List GlyphLink) : ℚ :=
  CalcGlyphChainLength.loop 0 glyphLink

/-- Method `Font::CountGlyphsInChain` (`FontSystem.cpp`, 756-769).  The `int` counter is a
natural number: a chain is far shorter than `2 ^ 31` links. -/
def CountGlyphsInChain : List GlyphLink → Nat → Nat
  | [], _ => 0
  | glyphLink :: rest, charCode =>
    (if glyphLink.hasCharCode charCode then 1 else 0) + CountGlyphsInChain rest charCode

/-! ## Line breaking -/

/-- What the loop of `BreakGlyphChain` leaves behind when it stops at an out-of-bounds
link: the pointers `glyphLinkBreak` and `prevGlyphLinkBreak`, each the position in the
chain of the link it points to, or `none` for the null pointer. -/
structure BreakPointers where
  glyphLinkBreak : Option Nat
  prevGlyphLinkBreak : Option Nat
  deriving DecidableEq

/-- The loop of `Font::BreakGlyphChain` (`FontSystem.cpp`, 685-703).  The arguments are the
position of the current link, `ox`, the pointers `prevGlyphLink`, `glyphLinkBreak`,
`prevGlyphLinkBreak` and the links from the current one on.  The result is `none` when the
loop returns the null pointer at the end of the chain (all links in bounds) and the two
break pointers when it leaves through `break`. -/
def BreakGlyphChain.loop (lineWidth : ℚ) :
    Nat → ℚ → Option Nat → Option Nat → Option Nat → List GlyphLink → Option BreakPointers
  | _, _, _, _, _, [] => none
  | i, ox, prevGlyphLink, glyphLinkBreak, prevGlyphLinkBreak, glyphLink :: rest =>
    let ox := ox + glyphLink.dx
    if ox + glyphLink.x + glyphLink.w ≥ lineWidth then
      some { glyphLinkBreak := glyphLinkBreak, prevGlyphLinkBreak := prevGlyphLinkBreak }
    else if glyphLink.noGlyphOrSpace then
      BreakGlyphChain.loop lineWidth (i + 1) ox (some i) (some i) prevGlyphLink rest
    else
      BreakGlyphChain.loop lineWidth (i + 1) ox (some i) glyphLinkBreak prevGlyphLinkBreak rest

/-- The outcome of `BreakGlyphChain`: the chain that was passed in as it is after the
call, and the chain the returned pointer heads (`none` for the null pointer). -/
structure BreakResult where
  chain : List GlyphLink
  remainder : Option (List GlyphLink)
  deriving DecidableEq

/-- The links reachable from position `j` of `chain` once the link at position `cut` has
had its `nextGlyphLink` set to null. -/
def linksFrom (chain : List GlyphLink) (cut j : Nat) : List GlyphLink :=
  if j ≤ cut then (chain.take (cut + 1)).drop j else chain.drop j

/-- Method `Font::BreakGlyphChain` (`FontSystem.cpp`, 677-710), for the line width
`fontSystem->GetLineWidth()`. -/
def BreakGlyphChain (lineWidth : ℚ) (glyphLink : List GlyphLink) : BreakResult :=
  match BreakGlyphChain.loop lineWidth 0 0 none none none glyphLink with
  | none => { chain := glyphLink, remainder := none }
  | some ptrs =>
    match ptrs.prevGlyphLinkBreak with
    | none => { chain := glyphLink, remainder := none }
    | some cut =>
      { chain := glyphLink.take (cut + 1)
        remainder := ptrs.glyphLinkBreak.map (linksFrom glyphLink cut) }

/-- The inner loop of the wrap loop of `Font::DrawText` (`FontSystem.cpp`, 437-442): links
without a glyph or holding a blank are deleted from the head of the chain.  The result is
the first link that stays and the links after it, or `none` when the loop reads past the
last link (a null pointer is dereferenced). -/
def discardLeading : List GlyphLink → Option (GlyphLink × List GlyphLink)
  | [] => none
  | glyphLink :: rest =>
    if glyphLink.noGlyphOrSpace then discardLeading rest else some (glyphLink, rest)

/-- How the wrap loop of `Font::DrawText` ends. -/
inductive WrapOutcome where
  | lines (glyphChainVector : List (List GlyphLink))
  | nullDereference
  | outOfFuel
  deriving DecidableEq

/-- The wrap loop of `Font::DrawText` (`FontSystem.cpp`, 431-446).  `done` holds the chains
of `glyphChainVector` that are already cut, `glyphLink` is the chain still to be broken
(the last entry of the vector), and the first argument bounds the number of iterations. -/
def wrapLoop (lineWidth : ℚ) :
    Nat → List (List GlyphLink) → List GlyphLink → WrapOutcome
  | 0, _, _ => WrapOutcome.outOfFuel
  | fuel + 1, done, glyphLink =>
    let broken := BreakGlyphChain lineWidth glyphLink
    match broken.remainder with
    | none => WrapOutcome.lines (done ++ [broken.chain])
    | some remainder =>
      match discardLeading remainder with
      | none => WrapOutcome.nullDereference
      | some (head, rest) =>
        wrapLoop lineWidth fuel (done ++ [broken.chain]) ({ head with dx := 0 } :: rest)

/-- Lines 425-447 of `Font::DrawText`: the chain is pushed on `glyphChainVector` and, when
the line width is positive and word wrap is on, broken into lines.  The wrap loop gets one
iteration more than the chain has links. -/
def wrapLines (fontSystem : System) (glyphLink : List GlyphLink) : WrapOutcome :=
  if fontSystem.lineWidth > 0 then
    if fontSystem.wordWrap then
      wrapLoop fontSystem.lineWidth (glyphLink.length + 1) [] glyphLink
    else WrapOutcome.lines [glyphLink]
  else WrapOutcome.lines [glyphLink]

/-! ## Justification -/

/-- Method `Font::JustifyGlyphChain` (`FontSystem.cpp`, 712-754): the chain after the call,
or `none` when `glyphLink->dx` is written through a null pointer. -/
def JustifyGlyphChain (fontSystem : System) (glyphLink : List GlyphLink) :
    Option (List GlyphLink) :=
  let length := CalcGlyphChainLength glyphLink
  let delta := fontSystem.lineWidth - length
  match fontSystem.justification with
  | Justification.JUSTIFY_LEFT => some glyphLink
  | Justification.JUSTIFY_RIGHT =>
    match glyphLink with
    | [] => none
    | head :: rest => some ({ head with dx := head.dx + delta } :: rest)
  | Justification.JUSTIFY_CENTER =>
    match glyphLink with
    | [] => none
    | head :: rest => some ({ head with dx := head.dx + delta / 2 } :: rest)
  | Justification.JUSTIFY_LEFT_AND_RIGHT =>
    let spaceCount := CountGlyphsInChain glyphLink spaceCharCode
    if spaceCount > 0 then
      let delta := delta / (spaceCount : ℚ)
      some (glyphLink.map fun link =>
        if link.hasCharCode spaceCharCode then { link with dx := link.dx + delta } else link)
    else some glyphLink

/-- Lines 449-456 of `Font::DrawText`: every chain of the vector is justified in turn;
`none` when one of the calls dereferences a null pointer. -/
def justifyLines (fontSystem : System) : List (List GlyphLink) → Option (List (List GlyphLink))
  | [] => some []
  | glyphLink :: rest =>
    match JustifyGlyphChain fontSystem glyphLink with
    | none => none
    | some justified => (justifyLines fontSystem rest).map (justified :: ·)

/-! ## Measuring and drawing -/

/-- Lines 418-423 of `Font::DrawText` and 512-517 of `Font::CalcTextLength`: the chain is
generated and, when the kerning map is not empty, kerned. -/
def Font.buildChain (font : Font) (charCodeString : List Nat) (conversionFactor : ℚ) :
    List GlyphLink :=
  let glyphLink := GenerateGlyphChain font.glyphMap charCodeString conversionFactor
  if font.kerningMap.length > 0 then KernGlyphChain font.kerningMap glyphLink conversionFactor
  else glyphLink

/-- What a call of `Font::DrawText` does: the flag it returns, the chains it renders with
their base lines (`RenderGlyphChain`, 465-471), the display list it replays, if any, and
the entry it stores in `textDisplayListMap`, if any; or a crash on a null pointer; or a
wrap loop that used up its iterations. -/
inductive DrawOutcome where
  | returned (success : Bool) (rendered : List (List GlyphLink × ℚ))
      (replayed : Option Nat) (stored : Option (List Nat × Nat))
  | nullDereference
  | outOfFuel
  deriving DecidableEq

/-- The base lines of lines 465-471 of `Font::DrawText`: the first chain is rendered at
`baseLine`, each further one `baseLineDelta` lower. -/
def renderLines (baseLineDelta : ℚ) : ℚ → List (List GlyphLink) → List (List GlyphLink × ℚ)
  | _, [] => []
  | baseLine, glyphLink :: rest =>
    (glyphLink, baseLine) :: renderLines baseLineDelta (baseLine + baseLineDelta) rest

/-- Method `Font::DrawText` (`FontSystem.cpp`, 380-494).  `newDisplayList` is the name
`glGenLists` hands out when the text is static and not cached. -/
def Font.DrawText (fontSystem : System) (font : Font) (text : List Nat) (staticText : Bool)
    (newDisplayList : Nat) : DrawOutcome :=
  if text.isEmpty then DrawOutcome.returned false [] none none
  else
    let displayList : Nat :=
      if staticText then (font.textDisplayListMap.lookup text).getD 0 else 0
    if displayList ≠ 0 then DrawOutcome.returned true [] (some displayList) none
    else
      let conversionFactor := font.CalcConversionFactor fontSystem
      match font.buildChain text conversionFactor with
      | [] => DrawOutcome.returned false [] none none
      | glyphLink =>
        match wrapLines fontSystem glyphLink with
        | WrapOutcome.nullDereference => DrawOutcome.nullDereference
        | WrapOutcome.outOfFuel => DrawOutcome.outOfFuel
        | WrapOutcome.lines glyphChainVector =>
          let justified :=
            if fontSystem.lineWidth > 0 ∧
                fontSystem.justification ≠ Justification.JUSTIFY_LEFT then
              justifyLines fontSystem glyphChainVector
            else some glyphChainVector
          match justified with
          | none => DrawOutcome.nullDereference
          | some glyphChainVector =>
            DrawOutcome.returned true (renderLines fontSystem.baseLineDelta 0 glyphChainVector)
              none (if staticText then some (text, newDisplayList) else none)

/-- Method `System::DrawText` (`FontSystem.cpp`, 111-132).  `cachedFont` is what
`GetOrCreateCachedFont` returns: the loaded font, or `none` for the null pointer. -/
def System.DrawText (s : System) (cachedFont : Option Font) (text : List Nat)
    (staticText : Bool) (newDisplayList : Nat) : DrawOutcome :=
  if !s.initialized then DrawOutcome.returned false [] none none
  else
    match cachedFont with
    | none => DrawOutcome.returned false [] none none
    | some font => font.DrawText s text staticText newDisplayList

/-! ## Text length in `GLfloat` arithmetic

`Font::CalcTextLength` adds and multiplies `GLfloat` values, and every operation rounds.
For the claim about the computed length the chain is embedded a second time, over a type
`F` of values with the operations as parameters.  Nothing is assumed of the operations, so
what is proved holds of rounded arithmetic, infinities and NaN included, and of exact
arithmetic alike. -/

/-- The `GLfloat` operations of the length computation on a type `F`: the literal `0.f`,
the conversions `GLfloat( ... )` of an `FT_Pos` and of a `GLuint`, and `+`, `*`, `/`. -/
structure GLfloatArith (F : Type) where
  zero : F
  ofInt : Int → F
  ofNat : Nat → F
  add : F → F → F
  mul : F → F → F
  div : F → F → F

/-- Exact arithmetic on the rationals. -/
def exactArith : GLfloatArith ℚ :=
  { zero := 0
    ofInt := fun value => (value : ℚ)
    ofNat := fun value => (value : ℚ)
    add := fun a b => a + b
    mul := fun a b => a * b
    div := fun a b => a / b }

namespace Arith

/-- Struct `Font::GlyphLink` (`FontSystem.h`, 118-127) with members of type `F`;
`nextGlyphLink` is the tail of the list. -/
structure GlyphLink (F : Type) where
  dx : F
  dy : F
  x : F
  y : F
  w : F
  h : F
  glyph : Option Glyph
  deriving DecidableEq

variable {F : Type}

/-- Method `Font::GlyphLink::GetMetrics` (`FontSystem.cpp`, 536-546). -/
def GlyphLink.GetMetrics (glyphLink : GlyphLink F) : FT_Glyph_Metrics :=
  match glyphLink.glyph with
  | some glyph => glyph.metrics
  | none => { width := 500, height := 500, horiBearingX := 0, horiBearingY := 0, horiAdvance := 0 }

/-- A freshly allocated link with its `glyph` member assigned. -/
def GlyphLink.fresh (ops : GLfloatArith F) (glyph : Option Glyph) : GlyphLink F :=
  { dx := ops.zero, dy := ops.zero, x := ops.zero, y := ops.zero, w := ops.zero,
    h := ops.zero, glyph := glyph }

/-- Method `Font::CalcConversionFactor` (`FontSystem.cpp`, 531-534), for the line height
`fontSystem->GetLineHeight()`. -/
def CalcConversionFactor (ops : GLfloatArith F) (lineHeight : F) (font : Font) : F :=
  ops.div lineHeight (ops.ofNat font.lineHeightMetric)

/-- The body of the loop of `Font::GenerateGlyphChain` for one character
(`FontSystem.cpp`, 555-593). -/
def GenerateGlyphChain.link (ops : GLfloatArith F) (glyphMap : List (Nat × Glyph))
    (conversionFactor : F) (prevGlyphLink : Option (GlyphLink F)) (charCode : Nat) :
    GlyphLink F :=
  let glyphLink := GlyphLink.fresh ops (glyphMap.lookup charCode)
  let metrics := glyphLink.GetMetrics
  let glyphLink := { glyphLink with
    w := ops.mul (ops.ofInt metrics.width) conversionFactor
    h := ops.mul (ops.ofInt metrics.height) conversionFactor }
  match prevGlyphLink with
  | none => { glyphLink with
      dx := ops.zero
      dy := ops.zero
      x := ops.zero
      y := ops.mul (ops.ofInt (metrics.horiBearingY - metrics.height)) conversionFactor }
  | some prev => { glyphLink with
      dx := ops.mul (ops.ofInt prev.GetMetrics.horiAdvance) conversionFactor
      dy := ops.zero
      x := ops.mul (ops.ofInt metrics.horiBearingX) conversionFactor
      y := ops.mul (ops.ofInt (metrics.horiBearingY - metrics.height)) conversionFactor }

/-- The loop of `Font::GenerateGlyphChain` (`FontSystem.cpp`, 553-596); the string ends at
a zero code or at the end of the list. -/
def GenerateGlyphChain.loop (ops : GLfloatArith F) (glyphMap : List (Nat × Glyph))
    (conversionFactor : F) : Option (GlyphLink F) → List Nat → List (GlyphLink F)
  | _, [] => []
  | prevGlyphLink, charCode :: rest =>
    if charCode = 0 then []
    else
      let glyphLink :=
        GenerateGlyphChain.link ops glyphMap conversionFactor prevGlyphLink charCode
      glyphLink :: GenerateGlyphChain.loop ops glyphMap conversionFactor (some glyphLink) rest

/-- Method `Font::GenerateGlyphChain` (`FontSystem.cpp`, 548-599). -/
def GenerateGlyphChain (ops : GLfloatArith F) (glyphMap : List (Nat × Glyph))
    (charCodeString : List Nat) (conversionFactor : F) : List (GlyphLink F) :=
  GenerateGlyphChain.loop ops glyphMap conversionFactor none charCodeString

/-- The body of the loop of `Font::KernGlyphChain` for one link (`FontSystem.cpp`, 607-616). -/
def KernGlyphChain.kern (ops : GLfloatArith F) (kerningMap : List (Nat × FT_Vector))
    (conversionFactor : F) (prevGlyphLink : Option (GlyphLink F)) (glyphLink : GlyphLink F) :
    GlyphLink F :=
  match prevGlyphLink with
  | none => glyphLink
  | some prev =>
    match prev.glyph, glyphLink.glyph with
    | some prevGlyph, some glyph =>
      match kerningMap.lookup (MakeKerningKey prevGlyph.glyphIndex glyph.glyphIndex) with
      | some kerning => { glyphLink with
          dx := ops.add glyphLink.dx (ops.mul (ops.ofInt kerning.x) conversionFactor) }
      | none => glyphLink
    | _, _ => glyphLink

/-- The loop of `Font::KernGlyphChain` (`FontSystem.cpp`, 605-620). -/
def KernGlyphChain.loop (ops : GLfloatArith F) (kerningMap : List (Nat × FT_Vector))
    (conversionFactor : F) : Option (GlyphLink F) → List (GlyphLink F) → List (GlyphLink F)
  | _, [] => []
  | prevGlyphLink, glyphLink :: rest =>
    let glyphLink := KernGlyphChain.kern ops kerningMap conversionFactor prevGlyphLink glyphLink
    glyphLink :: KernGlyphChain.loop ops kerningMap conversionFactor (some glyphLink) rest

/-- Method `Font::KernGlyphChain` (`FontSystem.cpp`, 601-621): the chain after the call. -/
def KernGlyphChain (ops : GLfloatArith F) (kerningMap : List (Nat × FT_Vector))
    (glyphLink : List (GlyphLink F)) (conversionFactor : F) : List (GlyphLink F) :=
  KernGlyphChain.loop ops kerningMap conversionFactor none glyphLink

/-- The loop of `Font::CalcGlyphChainLength` (`FontSystem.cpp`, 663-671). -/
def CalcGlyphChainLength.loop (ops : GLfloatArith F) : F → List (GlyphLink F) → F
  | length, [] => length
  | length, [glyphLink] => ops.add length (ops.add glyphLink.x glyphLink.w)
  | length, _ :: next :: rest =>
    CalcGlyphChainLength.loop ops (ops.add length next.dx) (next :: rest)

/-- Method `Font::CalcGlyphChainLength` (`FontSystem.cpp`, 659-674). -/
def CalcGlyphChainLength (ops : GLfloatArith F) (glyphLink : List (GlyphLink F)) : F :=
  CalcGlyphChainLength.loop ops ops.zero glyphLink

/-- Lines 512-517 of `Font::CalcTextLength`: the chain is generated and, when the kerning
map is not empty, kerned. -/
def buildChain (ops : GLfloatArith F) (font : Font) (charCodeString : List Nat)
    (conversionFactor : F) : List (GlyphLink F) :=
  let glyphLink := GenerateGlyphChain ops font.glyphMap charCodeString conversionFactor
  if font.kerningMap.length > 0 then
    KernGlyphChain ops font.kerningMap glyphLink conversionFactor
  else glyphLink

/-- A link with rational members as a link of the exact embedding. -/
def GlyphLink.toExact (glyphLink : GlyphLink ℚ) : FontSys.GlyphLink :=
  { dx := glyphLink.dx, dy := glyphLink.dy, x := glyphLink.x, y := glyphLink.y,
    w := glyphLink.w, h := glyphLink.h, glyph := glyphLink.glyph }

end Arith

/-! ## Loading a font -/

/-- Constructor `Font::Font` (`FontSystem.cpp`, 201-206): nothing loaded, all maps empty. -/
def Font.new : Font :=
  { initialized := false
    glyphMap := []
    kerningMap := []
    textDisplayListMap := []
    lineHeightMetric := 0 }

/-- What `Font::Initialize` gets from FreeType for a font file.
* `opened`: `FT_New_Face` succeeded, a Unicode charmap was found and selected and
  `FT_Set_Char_Size` succeeded (lines 226-247).
* `charIndex`: `FT_Get_Char_Index`, 0 for a character without a glyph.
* `glyphSlot`: for a glyph index, the metrics of the loaded and rendered glyph and the
  texture name `Glyph::Initialize` creates, or `none` when `FT_Load_Glyph`,
  `FT_Render_Glyph` or `Glyph::Initialize` fails.
* `hasKerning`: `FT_HAS_KERNING`.
* `kerning`: the vector `FT_Get_Kerning` reports for a left and a right glyph index. -/
structure FT_Face where
  opened : Bool
  charIndex : Nat → Nat
  glyphSlot : Nat → Option (FT_Glyph_Metrics × Nat)
  hasKerning : Bool
  kerning : Nat → Nat → FT_Vector

/-- The constant `charCodeString` of `Font::Initialize` (`FontSystem.cpp`, 249-251): the 26
small letters, the 26 capital letters, the 10 digits and 31 punctuation characters, the
blank last. -/
def supportedCharCodes : List Nat :=
  [97, 98, 99, 100, 101, 102, 103, 104, 105, 106, 107, 108, 109, 110, 111, 112, 113, 114,
   115, 116, 117, 118, 119, 120, 121, 122,
   65, 66, 67, 68, 69, 70, 71, 72, 73, 74, 75, 76, 77, 78, 79, 80, 81, 82, 83, 84, 85, 86,
   87, 88, 89, 90,
   48, 49, 50, 51, 52, 53, 54, 55, 56, 57,
   96, 126, 33, 64, 35, 36, 37, 94, 38, 42, 40, 41, 95, 43, 45, 61, 123, 125, 91, 93, 44,
   46, 60, 62, 47, 63, 39, 34, 59, 58, 32]

/-- An assignment `map[key] = value` to a `std::map`.  The entry is put in front, where
`List.lookup` finds it first: an older entry under the same key is shadowed, as if
overwritten. -/
def mapAssign {β : Type} (key : Nat) (value : β) (map : List (Nat × β)) : List (Nat × β) :=
  (key, value) :: map

/-- The conversion `( unsigned )` of an `FT_Pos` to a 32-bit unsigned integer. -/
def toUnsigned (value : Int) : Nat :=
  (value % 2 ^ 32).toNat

/-- The glyph loop of `Font::Initialize` (`FontSystem.cpp`, 255-287) from one character of
`charCodeString` on: the glyph map and `lineHeightMetric` at the end of the string, or
`none` when the loop is left early through `break`. -/
def Font.Initialize.loadGlyphs (face : FT_Face) :
    List Nat → List (Nat × Glyph) → Nat → Option (List (Nat × Glyph) × Nat)
  | [], glyphMap, lineHeightMetric => some (glyphMap, lineHeightMetric)
  | charCode :: rest, glyphMap, lineHeightMetric =>
    if charCode = 0 then some (glyphMap, lineHeightMetric)
    else
      let glyphIndex := face.charIndex charCode
      if glyphIndex = 0 then Font.Initialize.loadGlyphs face rest glyphMap lineHeightMetric
      else
        match face.glyphSlot glyphIndex with
        | none => none
        | some (metrics, texture) =>
          let cachedGlyph : Glyph :=
            { texture := texture, metrics := metrics, glyphIndex := glyphIndex,
              charCode := charCode }
          let glyphMap := mapAssign charCode cachedGlyph glyphMap
          let lineHeightMetric :=
            if metrics.height = metrics.horiBearingY ∧
                toUnsigned metrics.height > lineHeightMetric then
              toUnsigned metrics.height
            else lineHeightMetric
          Font.Initialize.loadGlyphs face rest glyphMap lineHeightMetric

/-- The inner kerning loop of `Font::Initialize` (`FontSystem.cpp`, 303-316) for one left
glyph, from position `j` of `charCodeString` on.  Its condition
`j < charCodeString[j] != '\0'` is `( j < charCodeString[j] ) != 0`, which holds exactly
when `j < charCodeString[j]`; at the end of the list the character read is the
terminator 0 and the loop stops. -/
def Font.Initialize.kernInner (face : FT_Face) (leftGlyphIndex : Nat) :
    Nat → List Nat → List (Nat × FT_Vector) → List (Nat × FT_Vector)
  | _, [], kerningMap => kerningMap
  | j, rightCharCode :: rest, kerningMap =>
    if j < rightCharCode then
      let rightGlyphIndex := face.charIndex rightCharCode
      if rightGlyphIndex = 0 then
        Font.Initialize.kernInner face leftGlyphIndex (j + 1) rest kerningMap
      else
        let kerning := face.kerning leftGlyphIndex rightGlyphIndex
        let key := MakeKerningKey leftGlyphIndex rightGlyphIndex
        Font.Initialize.kernInner face leftGlyphIndex (j + 1) rest
          (mapAssign key kerning kerningMap)
    else kerningMap

/-- The outer kerning loop of `Font::Initialize` (`FontSystem.cpp`, 296-317) from one
character of `charCodeString` on; the inner loop starts over at position 0 of the whole
string for every left glyph. -/
def Font.Initialize.kernOuter (face : FT_Face) (charCodeString : List Nat) :
    List Nat → List (Nat × FT_Vector) → List (Nat × FT_Vector)
  | [], kerningMap => kerningMap
  | leftCharCode :: rest, kerningMap =>
    if leftCharCode = 0 then kerningMap
    else
      let leftGlyphIndex := face.charIndex leftCharCode
      if leftGlyphIndex = 0 then
        Font.Initialize.kernOuter face charCodeString rest kerningMap
      else
        Font.Initialize.kernOuter face charCodeString rest
          (Font.Initialize.kernInner face leftGlyphIndex 0 charCodeString kerningMap)

/-- Method `Font::Initialize` (`FontSystem.cpp`, 214-330): the font after a successful
call, or `none` when the call returns false (the state a failed call leaves behind is not
kept). -/
def Font.Initialize (font : Font) (face : FT_Face) : Option Font :=
  if font.initialized then none
  else if !face.opened then none
  else
    match Font.Initialize.loadGlyphs face supportedCharCodes font.glyphMap 0 with
    | none => none
    | some (glyphMap, lineHeightMetric) =>
      if lineHeightMetric = 0 then none
      else
        some
          { initialized := true
            glyphMap := glyphMap
            kerningMap :=
              if face.hasKerning then
                Font.Initialize.kernOuter face supportedCharCodes supportedCharCodes []
              else []
            textDisplayListMap := font.textDisplayListMap
            lineHeightMetric := lineHeightMetric }

/-- The characters the inner kerning loop of `Font::Initialize` visits when it starts at
position `j`: those before the first position `j` with `j ≥ charCodeString[j]`. -/
def visitedRight : Nat → List Nat → List Nat
  | _, [] => []
  | j, charCode :: rest => if j < charCode then charCode :: visitedRight (j + 1) rest else []

/-! ## Vocabulary of the line-breaking claims -/

/-- The value of `ox` in `BreakGlyphChain` right after `ox += glyphLink->dx` at position
`i`, when the loop is entered with `ox = 0`: the sum of the `dx` of the links `0 .. i`. -/
def runningOffset (chain : List GlyphLink) (i : Nat) : ℚ :=
  ((chain.take (i + 1)).map GlyphLink.dx).sum

/-- The link at position `i` exists and fails the bounds test of `BreakGlyphChain` (692)
when the scan starts at offset `ox`. -/
def outOfBoundsFrom (lineWidth ox : ℚ) (chain : List GlyphLink) (i : Nat) : Bool :=
  match chain[i]? with
  | none => false
  | some link => decide (ox + runningOffset chain i + link.x + link.w ≥ lineWidth)

/-- The link at position `i` is out of bounds: `ox + x + w ≥ lineWidth`. -/
def outOfBoundsAt (lineWidth : ℚ) (chain : List GlyphLink) (i : Nat) : Bool :=
  outOfBoundsFrom lineWidth 0 chain i

/-- Position `k` is the out-of-bounds point when the scan starts at offset `ox`. -/
def firstOutOfBoundsFrom (lineWidth ox : ℚ) (chain : List GlyphLink) (k : Nat) : Prop :=
  outOfBoundsFrom lineWidth ox chain k = true ∧
    ∀ i, i < k → outOfBoundsFrom lineWidth ox chain i = false

/-- Position `k` is the out-of-bounds point: the first link that is out of bounds. -/
def firstOutOfBounds (lineWidth : ℚ) (chain : List GlyphLink) (k : Nat) : Prop :=
  firstOutOfBoundsFrom lineWidth 0 chain k

/-- The link at position `i` exists and is a break opportunity: it has no glyph or its
glyph is a blank. -/
def breakOpportunityAt (chain : List GlyphLink) (i : Nat) : Bool :=
  match chain[i]? with
  | none => false
  | some link => link.noGlyphOrSpace

/-- Position `j` is the most recent break opportunity before position `k`. -/
def lastBreakOpportunityBefore (chain : List GlyphLink) (k j : Nat) : Prop :=
  j < k ∧ breakOpportunityAt chain j = true ∧
    ∀ i, i < k → j < i → breakOpportunityAt chain i = false

instance (lineWidth ox : ℚ) (chain : List GlyphLink) (k : Nat) :
    Decidable (firstOutOfBoundsFrom lineWidth ox chain k) := by
  unfold firstOutOfBoundsFrom; infer_instance

instance (lineWidth : ℚ) (chain : List GlyphLink) (k : Nat) :
    Decidable (firstOutOfBounds lineWidth chain k) := by
  unfold firstOutOfBounds; infer_instance

instance (chain : List GlyphLink) (k j : Nat) :
    Decidable (lastBreakOpportunityBefore chain k j) := by
  unfold lastBreakOpportunityBefore; infer_instance

/-- The unbreakable tokens of a chain: its maximal runs of links none of which is without
a glyph or holds a blank. -/
def tokens (chain : List GlyphLink) : List (List GlyphLink) :=
  (chain.splitOnP fun link => link.noGlyphOrSpace).filter fun run => !run.isEmpty

/-- The first link of the chain, if any, has `dx = 0`. -/
def headDxZero (chain : List GlyphLink) : Prop :=
  ∀ link, chain.head? = some link → link.dx = 0

/-- What the wrap loop guarantees about the chains it leaves in `glyphChainVector`: all
but the last measure less than the line width, and the last does too unless its scan
meets an out-of-bounds point with no break opportunity strictly between the head and that
point. -/
def linesWithinWidth (lineWidth : ℚ) (lines : List (List GlyphLink)) : Prop :=
  ∃ init last, lines = init ++ [last] ∧
    (∀ line, line ∈ init → CalcGlyphChainLength line < lineWidth) ∧
    (CalcGlyphChainLength last < lineWidth ∨
      ∃ k, firstOutOfBounds lineWidth last k ∧
        ∀ j, j < k → 0 < j → breakOpportunityAt last j = false)

/-! ## A monospace example font -/

/-- A glyph of width 10, height 10, bearing `(0, 10)` and advance 10. -/
def monoGlyph (charCode : Nat) : Glyph :=
  { texture := 0
    metrics := { width := 10, height := 10, horiBearingX := 0, horiBearingY := 10,
                 horiAdvance := 10 }
    glyphIndex := charCode
    charCode := charCode }

/-- A blank glyph: an empty box (width and height 0) of advance 10. -/
def blankGlyph : Glyph :=
  { texture := 0
    metrics := { width := 0, height := 0, horiBearingX := 0, horiBearingY := 0,
                 horiAdvance := 10 }
    glyphIndex := 32
    charCode := 32 }

/-- A font with the glyphs `a`, `b`, `c`, `d` and the blank, all of advance 10, no kerning
data and a line-height metric of 10. -/
def monoFont : Font :=
  { initialized := true
    glyphMap := [(97, monoGlyph 97), (98, monoGlyph 98), (99, monoGlyph 99),
                 (100, monoGlyph 100), (32, blankGlyph)]
    kerningMap := []
    textDisplayListMap := []
    lineHeightMetric := 10 }

/-- The monospace example font with one kerning entry: `-2` for the pair `a`, `b`. -/
def kernedFont : Font :=
  { monoFont with kerningMap := [(MakeKerningKey 97 98, { x := -2, y := 0 })] }

/-- An example face: every character code is its own glyph index, every glyph loads with
the metrics of the monospace letter, and the kerning reported for a pair is the difference
of its glyph indices. -/
def exampleFace : FT_Face :=
  { opened := true
    charIndex := fun charCode => charCode
    glyphSlot := fun glyphIndex => some ((monoGlyph glyphIndex).metrics, 0)
    hasKerning := true
    kerning := fun left right => { x := (left : Int) - (right : Int), y := 0 } }

/-- An initialized system with line width 35, line height 10 and word wrap on. -/
def wrapSystem : System :=
  { System.new with initialized := true, lineWidth := 35, lineHeight := 10,
                    baseLineDelta := -12, wordWrap := true }

/-- A letter glyph of the monospace scenario: it carries the given character code and has
advance 10, width 10 and horizontal bearing 0. -/
def Glyph.isMonoLetter (glyph : Glyph) (charCode : Nat) : Prop :=
  glyph.charCode = charCode ∧ glyph.metrics.horiAdvance = 10 ∧ glyph.metrics.width = 10 ∧
    glyph.metrics.horiBearingX = 0

/-- The blank glyph of the monospace scenario: advance 10, and a box whose right edge
`horiBearingX + width` stays left of 15, so that the blank after two letters is in bounds
at line width 35. -/
def Glyph.isMonoBlank (glyph : Glyph) : Prop :=
  glyph.charCode = spaceCharCode ∧ glyph.metrics.horiAdvance = 10 ∧
    glyph.metrics.horiBearingX + glyph.metrics.width < 15

/-- The link `GenerateGlyphChain` builds at conversion factor 1 for a letter glyph of the
monospace scenario, with the given `dx`. -/
def letterLink (dx : ℚ) (glyph : Glyph) : GlyphLink :=
  { dx := dx, dy := 0, x := 0
    y := ((glyph.metrics.horiBearingY - glyph.metrics.height : Int) : ℚ)
    w := 10, h := (glyph.metrics.height : ℚ), glyph := some glyph }

/-! ## Vocabulary of the justification, configuration and text-length claims -/

/-- The right edge of the last link of a chain as `RenderGlyphChain` places it from the
origin 0: the sum of the `dx` of all links, the first included, plus the last link's
`x + w`. -/
def rightEdge (chain : List GlyphLink) : ℚ :=
  (chain.map GlyphLink.dx).sum +
    match chain.getLast? with
    | some last => last.x + last.w
    | none => 0

/-! ## Theorems -/

/-! ### The scan of `BreakGlyphChain` -/

theorem runningOffset_cons (link : GlyphLink) (rest : List GlyphLink) (m : Nat) :
    runningOffset (link :: rest) (m + 1) = link.dx + runningOffset rest m := by
  simp [runningOffset]

theorem runningOffset_zero (link : GlyphLink) (rest : List GlyphLink) :
    runningOffset (link :: rest) 0 = link.dx := by
  simp [runningOffset]

theorem outOfBoundsFrom_succ (lineWidth ox : ℚ) (link : GlyphLink) (rest : List GlyphLink)
    (m : Nat) :
    outOfBoundsFrom lineWidth ox (link :: rest) (m + 1) =
      outOfBoundsFrom lineWidth (ox + link.dx) rest m := by
  simp only [outOfBoundsFrom, List.getElem?_cons_succ, runningOffset_cons]
  cases rest[m]? with
  | none => rfl
  | some l => simp only [add_assoc]

theorem outOfBoundsFrom_zero (lineWidth ox : ℚ) (link : GlyphLink) (rest : List GlyphLink) :
    outOfBoundsFrom lineWidth ox (link :: rest) 0 =
      decide (ox + link.dx + link.x + link.w ≥ lineWidth) := by
  simp [outOfBoundsFrom, runningOffset_zero]

theorem breakOpportunityAt_succ (link : GlyphLink) (rest : List GlyphLink) (m : Nat) :
    breakOpportunityAt (link :: rest) (m + 1) = breakOpportunityAt rest m := by
  simp [breakOpportunityAt]

theorem breakOpportunityAt_zero (link : GlyphLink) (rest : List GlyphLink) :
    breakOpportunityAt (link :: rest) 0 = link.noGlyphOrSpace := by
  simp [breakOpportunityAt]

theorem firstOutOfBoundsFrom_succ {lineWidth ox : ℚ} {link : GlyphLink}
    {rest : List GlyphLink} {m : Nat}
    (h : firstOutOfBoundsFrom lineWidth ox (link :: rest) (m + 1)) :
    ¬ (ox + link.dx + link.x + link.w ≥ lineWidth) ∧
      firstOutOfBoundsFrom lineWidth (ox + link.dx) rest m := by
  obtain ⟨h1, h2⟩ := h
  refine ⟨?_, ?_, ?_⟩
  · have := h2 0 (Nat.succ_pos m)
    rw [outOfBoundsFrom_zero] at this
    simpa using this
  · rw [outOfBoundsFrom_succ] at h1; exact h1
  · intro i hi
    have := h2 (i + 1) (Nat.succ_lt_succ hi)
    rw [outOfBoundsFrom_succ] at this; exact this

/-- The scan returns the null pointer at the end of the chain when no link is out of bounds. -/
theorem BreakGlyphChain.loop_inBounds (lineWidth : ℚ) (suf : List GlyphLink) :
    ∀ (i : Nat) (ox : ℚ) (p b pb : Option Nat),
      (∀ m, m < suf.length → outOfBoundsFrom lineWidth ox suf m = false) →
      BreakGlyphChain.loop lineWidth i ox p b pb suf = none := by
  induction suf with
  | nil => intro i ox p b pb _; rfl
  | cons link rest ih =>
    intro i ox p b pb h
    have h0 := h 0 (by simp)
    rw [outOfBoundsFrom_zero] at h0
    have h0' : ¬ (ox + link.dx + link.x + link.w ≥ lineWidth) := by simpa using h0
    have hrest : ∀ m, m < rest.length →
        outOfBoundsFrom lineWidth (ox + link.dx) rest m = false := by
      intro m hm
      have := h (m + 1) (by simpa using hm)
      rw [outOfBoundsFrom_succ] at this; exact this
    simp only [BreakGlyphChain.loop, h0', if_false]
    split
    · exact ih _ _ _ _ _ hrest
    · exact ih _ _ _ _ _ hrest

/-- The scan stops at the out-of-bounds point with the break pointers it was entered with
when no link before that point is a break opportunity. -/
theorem BreakGlyphChain.loop_noBreak (lineWidth : ℚ) (suf : List GlyphLink) :
    ∀ (m i : Nat) (ox : ℚ) (p b pb : Option Nat),
      firstOutOfBoundsFrom lineWidth ox suf m →
      (∀ r, r < m → breakOpportunityAt suf r = false) →
      BreakGlyphChain.loop lineWidth i ox p b pb suf =
        some { glyphLinkBreak := b, prevGlyphLinkBreak := pb } := by
  induction suf with
  | nil =>
    intro m i ox p b pb h _
    have := h.1
    simp [outOfBoundsFrom] at this
  | cons link rest ih =>
    intro m i ox p b pb h hb
    cases m with
    | zero =>
      have h0 := h.1
      rw [outOfBoundsFrom_zero] at h0
      have h0' : ox + link.dx + link.x + link.w ≥ lineWidth := by simpa using h0
      simp only [BreakGlyphChain.loop, h0', if_true]
    | succ m =>
      obtain ⟨h0, hrest⟩ := firstOutOfBoundsFrom_succ h
      have hl : link.noGlyphOrSpace = false := by
        have := hb 0 (Nat.succ_pos m)
        rw [breakOpportunityAt_zero] at this; exact this
      have hb' : ∀ r, r < m → breakOpportunityAt rest r = false := by
        intro r hr
        have := hb (r + 1) (Nat.succ_lt_succ hr)
        rw [breakOpportunityAt_succ] at this; exact this
      simp only [BreakGlyphChain.loop, h0, if_false, hl]
      exact ih m _ _ _ _ _ hrest hb'

/-- The scan stops at the out-of-bounds point with `glyphLinkBreak` on the most recent
break opportunity before it and `prevGlyphLinkBreak` on the link before that one. -/
theorem BreakGlyphChain.loop_break (lineWidth : ℚ) (suf : List GlyphLink) :
    ∀ (m r i : Nat) (ox : ℚ) (p b pb : Option Nat),
      firstOutOfBoundsFrom lineWidth ox suf m →
      lastBreakOpportunityBefore suf m r →
      BreakGlyphChain.loop lineWidth i ox p b pb suf =
        some { glyphLinkBreak := some (i + r)
               prevGlyphLinkBreak := if r = 0 then p else some (i + r - 1) } := by
  induction suf with
  | nil =>
    intro m r i ox p b pb h _
    have := h.1
    simp [outOfBoundsFrom] at this
  | cons link rest ih =>
    intro m r i ox p b pb h hr
    obtain ⟨hrm, hbr, hafter⟩ := hr
    cases m with
    | zero => exact absurd hrm (Nat.not_lt_zero r)
    | succ m =>
      obtain ⟨h0, hrest⟩ := firstOutOfBoundsFrom_succ h
      cases r with
      | zero =>
        have hl : link.noGlyphOrSpace = true := by
          rw [breakOpportunityAt_zero] at hbr; exact hbr
        have hb' : ∀ q, q < m → breakOpportunityAt rest q = false := by
          intro q hq
          have := hafter (q + 1) (Nat.succ_lt_succ hq) (Nat.succ_pos q)
          rw [breakOpportunityAt_succ] at this; exact this
        simp only [BreakGlyphChain.loop, h0, if_false, hl, if_true]
        rw [BreakGlyphChain.loop_noBreak lineWidth rest m _ _ _ _ _ hrest hb']
        simp
      | succ r =>
        have hlast : lastBreakOpportunityBefore rest m r := by
          refine ⟨Nat.lt_of_succ_lt_succ hrm, ?_, ?_⟩
          · rw [breakOpportunityAt_succ] at hbr; exact hbr
          · intro q hq1 hq2
            have := hafter (q + 1) (Nat.succ_lt_succ hq1) (Nat.succ_lt_succ hq2)
            rw [breakOpportunityAt_succ] at this; exact this
        have key : ∀ (b' pb' : Option Nat),
            BreakGlyphChain.loop lineWidth (i + 1) (ox + link.dx) (some i) b' pb' rest =
              some { glyphLinkBreak := some (i + (r + 1))
                     prevGlyphLinkBreak := some (i + (r + 1) - 1) } := by
          intro b' pb'
          rw [ih m r (i + 1) (ox + link.dx) (some i) b' pb' hrest hlast]
          have e1 : i + 1 + r = i + (r + 1) := by omega
          by_cases hr0 : r = 0
          · subst hr0
            simp
          · simp only [hr0, if_false, e1]
        simp only [BreakGlyphChain.loop, h0, if_false]
        split
        · rw [key]; simp
        · rw [key]; simp

/-- Either no link of the chain is out of bounds, or there is an out-of-bounds point. -/
theorem firstOutOfBounds_cases (lineWidth : ℚ) (chain : List GlyphLink) :
    (∀ i, i < chain.length → outOfBoundsAt lineWidth chain i = false) ∨
      ∃ k, firstOutOfBounds lineWidth chain k := by
  by_cases h : ∃ k, outOfBoundsAt lineWidth chain k = true
  · right
    refine ⟨Nat.find h, Nat.find_spec h, ?_⟩
    intro i hi
    have := Nat.find_min h hi
    simpa using this
  · left
    intro i _
    have := fun hh => h ⟨i, hh⟩
    simpa using this

/-- Before position `k` either no link other than the head is a break opportunity, or
there is a most recent break opportunity that is not the head. -/
theorem lastBreakOpportunity_cases (chain : List GlyphLink) (k : Nat) :
    (∀ j, j < k → 0 < j → breakOpportunityAt chain j = false) ∨
      ∃ j, 0 < j ∧ lastBreakOpportunityBefore chain k j := by
  induction k with
  | zero => left; intro j hj; exact absurd hj (Nat.not_lt_zero j)
  | succ k ih =>
    by_cases hk : breakOpportunityAt chain k = true ∧ 0 < k
    · right
      refine ⟨k, hk.2, Nat.lt_succ_self k, hk.1, ?_⟩
      intro i hi1 hi2
      omega
    · have hk' : 0 < k → breakOpportunityAt chain k = false := by
        intro h0
        by_contra hc
        exact hk ⟨by simpa using hc, h0⟩
      rcases ih with h | ⟨j, hj0, hjk, hbj, hafter⟩
      · left
        intro j hj hj0
        rcases Nat.lt_succ_iff_lt_or_eq.mp hj with hlt | heq
        · exact h j hlt hj0
        · subst heq; exact hk' hj0
      · right
        refine ⟨j, hj0, Nat.lt_succ_of_lt hjk, hbj, ?_⟩
        intro i hi1 hi2
        rcases Nat.lt_succ_iff_lt_or_eq.mp hi1 with hlt | heq
        · exact hafter i hlt hi2
        · subst heq; exact hk' (by omega)

/-- `BreakGlyphChain` on a chain with no link out of bounds. -/
theorem BreakGlyphChain_inBounds (lineWidth : ℚ) (chain : List GlyphLink)
    (h : ∀ i, i < chain.length → outOfBoundsAt lineWidth chain i = false) :
    BreakGlyphChain lineWidth chain = { chain := chain, remainder := none } := by
  unfold BreakGlyphChain
  rw [BreakGlyphChain.loop_inBounds lineWidth chain 0 0 none none none h]

/-- `BreakGlyphChain` on a chain whose links strictly between the head and the
out-of-bounds point hold no break opportunity. -/
theorem BreakGlyphChain_noBreak (lineWidth : ℚ) (chain : List GlyphLink) (k : Nat)
    (hk : firstOutOfBounds lineWidth chain k)
    (hb : ∀ j, j < k → 0 < j → breakOpportunityAt chain j = false) :
    BreakGlyphChain lineWidth chain = { chain := chain, remainder := none } := by
  unfold BreakGlyphChain
  by_cases h0 : breakOpportunityAt chain 0 = true ∧ 0 < k
  · have hlast : lastBreakOpportunityBefore chain k 0 :=
      ⟨h0.2, h0.1, fun i hi1 hi2 => hb i hi1 hi2⟩
    rw [BreakGlyphChain.loop_break lineWidth chain k 0 0 0 none none none hk hlast]
    simp
  · have hall : ∀ r, r < k → breakOpportunityAt chain r = false := by
      intro r hr
      rcases Nat.eq_zero_or_pos r with hr0 | hr0
      · subst hr0
        by_contra hc
        exact h0 ⟨by simpa using hc, hr⟩
      · exact hb r hr hr0
    rw [BreakGlyphChain.loop_noBreak lineWidth chain k 0 0 none none none hk hall]

/-- `BreakGlyphChain` on a chain whose most recent break opportunity before the
out-of-bounds point is not the head. -/
theorem BreakGlyphChain_break (lineWidth : ℚ) (chain : List GlyphLink) (k j : Nat)
    (hk : firstOutOfBounds lineWidth chain k)
    (hj : lastBreakOpportunityBefore chain k j) (h0 : 0 < j) :
    BreakGlyphChain lineWidth chain =
      { chain := chain.take j, remainder := some (chain.drop j) } := by
  unfold BreakGlyphChain
  rw [BreakGlyphChain.loop_break lineWidth chain k j 0 0 none none none hk hj]
  obtain ⟨q, rfl⟩ : ∃ q, j = q + 1 := ⟨j - 1, by omega⟩
  simp [linksFrom]

/-! ### Measured length and the wrap loop -/

theorem CalcGlyphChainLength.loop_eq (rest : List GlyphLink) :
    ∀ (length : ℚ) (link last : GlyphLink),
      (link :: rest)[rest.length]? = some last →
      CalcGlyphChainLength.loop length (link :: rest) =
        length + (runningOffset (link :: rest) rest.length - link.dx) + last.x + last.w := by
  induction rest with
  | nil =>
    intro length link last h
    simp at h
    subst h
    simp [CalcGlyphChainLength.loop, runningOffset_zero]
    ring
  | cons next rest ih =>
    intro length link last h
    have h' : (next :: rest)[rest.length]? = some last := by
      simpa using h
    have e : (next :: rest).length = rest.length + 1 := rfl
    rw [CalcGlyphChainLength.loop, ih (length + next.dx) next last h', e, runningOffset_cons]
    ring

/-- A non-empty chain whose head has `dx = 0` and whose last link is in bounds measures
less than the line width. -/
theorem CalcGlyphChainLength_lt (lineWidth : ℚ) (link : GlyphLink) (rest : List GlyphLink)
    (hdx : link.dx = 0)
    (h : outOfBoundsAt lineWidth (link :: rest) rest.length = false) :
    CalcGlyphChainLength (link :: rest) < lineWidth := by
  have hlen : rest.length < (link :: rest).length := by simp
  obtain ⟨last, hlast⟩ : ∃ last, (link :: rest)[rest.length]? = some last :=
    ⟨(link :: rest)[rest.length], List.getElem?_eq_getElem hlen⟩
  unfold CalcGlyphChainLength
  rw [CalcGlyphChainLength.loop_eq rest 0 link last hlast, hdx]
  simp only [outOfBoundsAt, outOfBoundsFrom, hlast] at h
  have h' : ¬ (0 + runningOffset (link :: rest) rest.length + last.x + last.w ≥ lineWidth) := by
    simpa using h
  have h'' := not_le.mp h'
  linarith

theorem outOfBoundsFrom_take (lineWidth ox : ℚ) (chain : List GlyphLink) (i j : Nat)
    (hij : i < j) :
    outOfBoundsFrom lineWidth ox (chain.take j) i = outOfBoundsFrom lineWidth ox chain i := by
  have e1 : (chain.take j)[i]? = chain[i]? := by
    rw [List.getElem?_take, if_pos hij]
  have e2 : runningOffset (chain.take j) i = runningOffset chain i := by
    unfold runningOffset
    rw [List.take_take, Nat.min_eq_left (Nat.succ_le_of_lt hij)]
  simp only [outOfBoundsFrom, e1, e2]

/-- The first `j` links of a chain whose head has `dx = 0`, all of them in bounds, measure
less than the line width. -/
theorem CalcGlyphChainLength_take_lt (lineWidth : ℚ) (chain : List GlyphLink) (j : Nat)
    (hlw : 0 < lineWidth) (hdx : headDxZero chain)
    (h : ∀ i, i < j → outOfBoundsAt lineWidth chain i = false) :
    CalcGlyphChainLength (chain.take j) < lineWidth := by
  cases hc : chain.take j with
  | nil => simpa [CalcGlyphChainLength, CalcGlyphChainLength.loop] using hlw
  | cons link rest =>
    have hj : 0 < j := by
      rcases Nat.eq_zero_or_pos j with h0 | h0
      · subst h0; simp at hc
      · exact h0
    have hhead : chain.head? = some link := by
      have : (chain.take j).head? = some link := by rw [hc]; rfl
      cases chain with
      | nil => simp at hc
      | cons a t =>
        obtain ⟨q, rfl⟩ : ∃ q, j = q + 1 := ⟨j - 1, by omega⟩
        simpa using this
    have hlen : rest.length < j := by
      have : (chain.take j).length ≤ j := by simp
      rw [hc] at this
      simpa using this
    apply CalcGlyphChainLength_lt lineWidth link rest (hdx link hhead)
    rw [← hc]
    unfold outOfBoundsAt
    rw [outOfBoundsFrom_take lineWidth 0 chain rest.length j hlen]
    exact h rest.length hlen

theorem discardLeading_length (chain : List GlyphLink) :
    ∀ head rest, discardLeading chain = some (head, rest) → rest.length < chain.length := by
  induction chain with
  | nil => intro head rest h; simp [discardLeading] at h
  | cons link tail ih =>
    intro head rest h
    simp only [discardLeading] at h
    split at h
    · have := ih head rest h
      simp only [List.length_cons]
      omega
    · simp only [Option.some.injEq, Prod.mk.injEq] at h
      rw [← h.2]
      simp

theorem wrapLoop_lines (lineWidth : ℚ) (hlw : 0 < lineWidth) :
    ∀ (fuel : Nat) (done : List (List GlyphLink)) (chain : List GlyphLink),
      chain.length < fuel → headDxZero chain →
      (∀ line, line ∈ done → CalcGlyphChainLength line < lineWidth) →
      wrapLoop lineWidth fuel done chain ≠ WrapOutcome.outOfFuel ∧
      ∀ lines, wrapLoop lineWidth fuel done chain = WrapOutcome.lines lines →
        linesWithinWidth lineWidth lines := by
  intro fuel
  induction fuel with
  | zero => intro done chain h; exact absurd h (Nat.not_lt_zero _)
  | succ fuel ih =>
    intro done chain hlen hdx hdone
    rcases firstOutOfBounds_cases lineWidth chain with hin | ⟨k, hk⟩
    · -- every link in bounds
      have hb := BreakGlyphChain_inBounds lineWidth chain hin
      simp only [wrapLoop, hb]
      refine ⟨by simp, ?_⟩
      intro lines hl
      simp only [WrapOutcome.lines.injEq] at hl
      refine ⟨done, chain, hl.symm, hdone, Or.inl ?_⟩
      have := CalcGlyphChainLength_take_lt lineWidth chain chain.length hlw hdx hin
      simpa using this
    · rcases lastBreakOpportunity_cases chain k with hnb | ⟨j, hj0, hj⟩
      · have hb := BreakGlyphChain_noBreak lineWidth chain k hk hnb
        simp only [wrapLoop, hb]
        refine ⟨by simp, ?_⟩
        intro lines hl
        simp only [WrapOutcome.lines.injEq] at hl
        exact ⟨done, chain, hl.symm, hdone, Or.inr ⟨k, hk, hnb⟩⟩
      · have hb := BreakGlyphChain_break lineWidth chain k j hk hj hj0
        simp only [wrapLoop, hb]
        cases hd : discardLeading (chain.drop j) with
        | none => simp
        | some pr =>
          obtain ⟨head, rest⟩ := pr
          simp only []
          have hrl := discardLeading_length (chain.drop j) head rest hd
          have hlen' : ({ head with dx := 0 } :: rest).length < fuel := by
            simp only [List.length_cons, List.length_drop] at hrl ⊢
            omega
          have hdx' : headDxZero ({ head with dx := 0 } :: rest) := by
            intro link hlink
            simp only [List.head?_cons, Option.some.injEq] at hlink
            rw [← hlink]
          have hdone' : ∀ line, line ∈ done ++ [chain.take j] →
              CalcGlyphChainLength line < lineWidth := by
            intro line hline
            rcases List.mem_append.mp hline with h1 | h1
            · exact hdone line h1
            · simp only [List.mem_singleton] at h1
              subst h1
              apply CalcGlyphChainLength_take_lt lineWidth chain j hlw hdx
              intro i hi
              exact hk.2 i (Nat.lt_trans hi hj.1)
          exact ih (done ++ [chain.take j]) ({ head with dx := 0 } :: rest) hlen' hdx' hdone'

theorem headDxZero_GenerateGlyphChain (glyphMap : List (Nat × Glyph))
    (charCodeString : List Nat) (conversionFactor : ℚ) :
    headDxZero (GenerateGlyphChain glyphMap charCodeString conversionFactor) := by
  intro link h
  unfold GenerateGlyphChain at h
  cases charCodeString with
  | nil => simp [GenerateGlyphChain.loop] at h
  | cons c rest =>
    simp only [GenerateGlyphChain.loop] at h
    split at h
    · simp at h
    · simp only [List.head?_cons, Option.some.injEq] at h
      rw [← h]
      rfl

theorem headDxZero_KernGlyphChain (kerningMap : List (Nat × FT_Vector))
    (chain : List GlyphLink) (conversionFactor : ℚ) (h : headDxZero chain) :
    headDxZero (KernGlyphChain kerningMap chain conversionFactor) := by
  intro link hl
  unfold KernGlyphChain at hl
  cases chain with
  | nil => simp [KernGlyphChain.loop] at hl
  | cons a t =>
    simp only [KernGlyphChain.loop, KernGlyphChain.kern, List.head?_cons,
      Option.some.injEq] at hl
    rw [← hl]
    exact h a rfl

theorem headDxZero_buildChain (font : Font) (charCodeString : List Nat)
    (conversionFactor : ℚ) :
    headDxZero (font.buildChain charCodeString conversionFactor) := by
  unfold Font.buildChain
  simp only []
  split
  · exact headDxZero_KernGlyphChain _ _ _ (headDxZero_GenerateGlyphChain _ _ _)
  · exact headDxZero_GenerateGlyphChain _ _ _

/-- C1 (amended): with a positive line width and word wrap on, the wrap loop of
`DrawText` run on a built and kerned chain never uses up its iterations, and when it
leaves a list of lines, every line but the last has `CalcGlyphChainLength < lineWidth`,
and so has the last line unless its scan meets an out-of-bounds point with no break
opportunity strictly between the head of the line and that point. -/
theorem wrapLines_line_lengths (fontSystem : System) (font : Font) (text : List Nat)
    (conversionFactor : ℚ) (hw : fontSystem.lineWidth > 0)
    (hwrap : fontSystem.wordWrap = true) :
    wrapLines fontSystem (font.buildChain text conversionFactor) ≠ WrapOutcome.outOfFuel ∧
    ∀ lines,
      wrapLines fontSystem (font.buildChain text conversionFactor) = WrapOutcome.lines lines →
      ∃ init last, lines = init ++ [last] ∧
        (∀ line, line ∈ init → CalcGlyphChainLength line < fontSystem.lineWidth) ∧
        (CalcGlyphChainLength last < fontSystem.lineWidth ∨
          ∃ k, firstOutOfBounds fontSystem.lineWidth last k ∧
            ∀ j, j < k → 0 < j → breakOpportunityAt last j = false) := by
  have hw' : 0 < fontSystem.lineWidth := hw
  unfold wrapLines
  simp only [hw, hwrap, if_true]
  exact wrapLoop_lines fontSystem.lineWidth hw' _ [] _ (Nat.lt_succ_self _)
    (headDxZero_buildChain font text conversionFactor) (by simp)

/-- C1, an instance: `"ab cd"` in the monospace font at line width 35 is wrapped into two
lines, each of measured length 20. -/
theorem wrapLines_line_lengths_witness :
    wrapSystem.lineWidth > 0 ∧ wrapSystem.wordWrap = true ∧
    wrapLines wrapSystem (monoFont.buildChain [97, 98, 32, 99, 100] 1) =
      WrapOutcome.lines
        [(monoFont.buildChain [97, 98] 1), (monoFont.buildChain [99, 100] 1)] ∧
    ∃ init last,
      [(monoFont.buildChain [97, 98] 1), (monoFont.buildChain [99, 100] 1)] = init ++ [last] ∧
        (∀ line, line ∈ init → CalcGlyphChainLength line < wrapSystem.lineWidth) ∧
        (CalcGlyphChainLength last < wrapSystem.lineWidth ∨
          ∃ k, firstOutOfBounds wrapSystem.lineWidth last k ∧
            ∀ j, j < k → 0 < j → breakOpportunityAt last j = false) :=
  ⟨by decide!, by decide, by decide!,
   (wrapLines_line_lengths wrapSystem monoFont [97, 98, 32, 99, 100] 1
      (by decide!) (by decide)).2 _ (by decide!)⟩

/-- C1, counterexample: `" abc"` in the monospace font at line width 35 stays one line of
measured length 40, although its only unbreakable token, `abc`, measures 30: the link of
`c` is out of bounds and the one break opportunity before it is the head of the chain. -/
theorem wrapLines_blank_abc_too_long :
    wrapSystem.lineWidth = 35 ∧ wrapSystem.wordWrap = true ∧
    wrapLines wrapSystem (monoFont.buildChain [32, 97, 98, 99] 1) =
      WrapOutcome.lines [monoFont.buildChain [32, 97, 98, 99] 1] ∧
    CalcGlyphChainLength (monoFont.buildChain [32, 97, 98, 99] 1) = 40 ∧
    ¬ (CalcGlyphChainLength (monoFont.buildChain [32, 97, 98, 99] 1) ≤ 35) ∧
    (tokens (monoFont.buildChain [32, 97, 98, 99] 1)).map CalcGlyphChainLength = [30] ∧
    ∀ token, token ∈ tokens (monoFont.buildChain [32, 97, 98, 99] 1) →
      CalcGlyphChainLength token ≤ 35 := by
  decide!

/-- C2 (amended): `BreakGlyphChain` returns the null pointer and leaves the chain as it is
when no link is out of bounds, and also when no link strictly between the head and the
out-of-bounds point is a break opportunity; when the most recent break opportunity before
the out-of-bounds point is at a position `j > 0`, the chain is cut to its first `j` links
and the links from position `j` on are returned. -/
theorem BreakGlyphChain_spec (lineWidth : ℚ) (chain : List GlyphLink) :
    ((∀ i, i < chain.length → outOfBoundsAt lineWidth chain i = false) →
      BreakGlyphChain lineWidth chain = { chain := chain, remainder := none }) ∧
    (∀ k, firstOutOfBounds lineWidth chain k →
      (∀ j, j < k → 0 < j → breakOpportunityAt chain j = false) →
      BreakGlyphChain lineWidth chain = { chain := chain, remainder := none }) ∧
    (∀ k j, firstOutOfBounds lineWidth chain k →
      lastBreakOpportunityBefore chain k j → 0 < j →
      BreakGlyphChain lineWidth chain =
        { chain := chain.take j, remainder := some (chain.drop j) }) :=
  ⟨BreakGlyphChain_inBounds lineWidth chain,
   fun k hk hb => BreakGlyphChain_noBreak lineWidth chain k hk hb,
   fun k j hk hj h0 => BreakGlyphChain_break lineWidth chain k j hk hj h0⟩

/-- C2, an instance: the chain of `"ab cd"` in the monospace font at line width 35 has its
out-of-bounds point at `c` (position 3) and its most recent break opportunity at the blank
(position 2); it is cut to `a b` and the links from the blank on are returned. -/
theorem BreakGlyphChain_spec_witness :
    firstOutOfBounds 35 (GenerateGlyphChain monoFont.glyphMap [97, 98, 32, 99, 100] 1) 3 ∧
    lastBreakOpportunityBefore
      (GenerateGlyphChain monoFont.glyphMap [97, 98, 32, 99, 100] 1) 3 2 ∧
    BreakGlyphChain 35 (GenerateGlyphChain monoFont.glyphMap [97, 98, 32, 99, 100] 1) =
      { chain := (GenerateGlyphChain monoFont.glyphMap [97, 98, 32, 99, 100] 1).take 2
        remainder :=
          some ((GenerateGlyphChain monoFont.glyphMap [97, 98, 32, 99, 100] 1).drop 2) } :=
  ⟨by decide!, by decide!,
   (BreakGlyphChain_spec 35
      (GenerateGlyphChain monoFont.glyphMap [97, 98, 32, 99, 100] 1)).2.2 3 2
      (by decide!) (by decide!) (by decide)⟩

/-- C2, counterexample: in the chain of `" a"` at line width 15 the link of `a`
(position 1) is the out-of-bounds point and the blank before it (position 0) is a break
opportunity, the most recent one; yet `BreakGlyphChain` returns the null pointer and
leaves the chain whole instead of cutting before the blank and returning it. -/
theorem BreakGlyphChain_head_blank_not_cut :
    firstOutOfBounds 15 (GenerateGlyphChain monoFont.glyphMap [32, 97] 1) 1 ∧
    lastBreakOpportunityBefore (GenerateGlyphChain monoFont.glyphMap [32, 97] 1) 1 0 ∧
    BreakGlyphChain 15 (GenerateGlyphChain monoFont.glyphMap [32, 97] 1) =
      { chain := GenerateGlyphChain monoFont.glyphMap [32, 97] 1, remainder := none } ∧
    BreakGlyphChain 15 (GenerateGlyphChain monoFont.glyphMap [32, 97] 1) ≠
      { chain := (GenerateGlyphChain monoFont.glyphMap [32, 97] 1).take 0
        remainder := some ((GenerateGlyphChain monoFont.glyphMap [32, 97] 1).drop 0) } := by
  decide!

/-- C3: in a font without kerning whose glyphs for `a`, `b`, `c`, `d` have advance 10,
width 10 and bearing 0 and whose blank has advance 10, at conversion factor 1, the text
`"ab cd"` is wrapped at line width 35 into exactly two lines: the links of `a`, `b`, and
the links of `c`, `d` with the blank gone and the `dx` of `c` equal to 0. -/
theorem wrapLines_ab_cd (fontSystem : System) (font : Font) (a b c d blank : Glyph)
    (hw : fontSystem.lineWidth = 35) (hwrap : fontSystem.wordWrap = true)
    (hk : font.kerningMap = [])
    (ha : font.glyphMap.lookup 97 = some a) (hb : font.glyphMap.lookup 98 = some b)
    (hc : font.glyphMap.lookup 99 = some c) (hd : font.glyphMap.lookup 100 = some d)
    (hs : font.glyphMap.lookup 32 = some blank)
    (hla : a.isMonoLetter 97) (hlb : b.isMonoLetter 98) (hlc : c.isMonoLetter 99)
    (hld : d.isMonoLetter 100) (hblank : blank.isMonoBlank) :
    wrapLines fontSystem (font.buildChain [97, 98, 32, 99, 100] 1) =
      WrapOutcome.lines [[letterLink 0 a, letterLink 10 b], [letterLink 0 c, letterLink 10 d]] := by
  obtain ⟨ha1, ha2, ha3, ha4⟩ := hla
  obtain ⟨hb1, hb2, hb3, hb4⟩ := hlb
  obtain ⟨hc1, hc2, hc3, hc4⟩ := hlc
  obtain ⟨hd1, hd2, hd3, hd4⟩ := hld
  obtain ⟨hs1, hs2, hs3⟩ := hblank
  have hs3' : ¬ ((35 : ℚ) ≤ 20 + (blank.metrics.horiBearingX : ℚ) + (blank.metrics.width : ℚ)) := by
    have : ((blank.metrics.horiBearingX + blank.metrics.width : Int) : ℚ) < 15 := by exact_mod_cast hs3
    push_cast at this
    intro hh
    linarith
  have hchain : font.buildChain [97, 98, 32, 99, 100] 1 =
      [letterLink 0 a, letterLink 10 b,
       { dx := 10, dy := 0, x := (blank.metrics.horiBearingX : ℚ)
         y := ((blank.metrics.horiBearingY - blank.metrics.height : Int) : ℚ)
         w := (blank.metrics.width : ℚ), h := (blank.metrics.height : ℚ), glyph := some blank },
       letterLink 10 c, letterLink 10 d] := by
    simp [Font.buildChain, hk, GenerateGlyphChain, GenerateGlyphChain.loop,
      GenerateGlyphChain.link, ha, hb, hc, hd, hs,
      GlyphLink.fresh, GlyphLink.GetMetrics, letterLink, ha2, ha3, ha4, hb2, hb3, hb4,
      hc2, hc3, hc4, hd2, hd3, hd4, hs2]
  have hbreak1 : BreakGlyphChain 35
      [letterLink 0 a, letterLink 10 b,
       { dx := 10, dy := 0, x := (blank.metrics.horiBearingX : ℚ)
         y := ((blank.metrics.horiBearingY - blank.metrics.height : Int) : ℚ)
         w := (blank.metrics.width : ℚ), h := (blank.metrics.height : ℚ), glyph := some blank },
       letterLink 10 c, letterLink 10 d] =
      { chain := [letterLink 0 a, letterLink 10 b]
        remainder := some
          [{ dx := 10, dy := 0, x := (blank.metrics.horiBearingX : ℚ)
             y := ((blank.metrics.horiBearingY - blank.metrics.height : Int) : ℚ)
             w := (blank.metrics.width : ℚ), h := (blank.metrics.height : ℚ)
             glyph := some blank },
           letterLink 10 c, letterLink 10 d] } := by
    simp only [BreakGlyphChain, BreakGlyphChain.loop, letterLink, GlyphLink.noGlyphOrSpace,
      ha1, hb1, hc1, hd1, hs1, spaceCharCode]
    norm_num [hs3', linksFrom]
  have hdiscard : discardLeading
      [{ dx := 10, dy := 0, x := (blank.metrics.horiBearingX : ℚ)
         y := ((blank.metrics.horiBearingY - blank.metrics.height : Int) : ℚ)
         w := (blank.metrics.width : ℚ), h := (blank.metrics.height : ℚ)
         glyph := some blank },
       letterLink 10 c, letterLink 10 d] = some (letterLink 10 c, [letterLink 10 d]) := by
    simp [discardLeading, letterLink, GlyphLink.noGlyphOrSpace, hc1, hs1, spaceCharCode]
  have hbreak2 : BreakGlyphChain 35 [letterLink 0 c, letterLink 10 d] =
      { chain := [letterLink 0 c, letterLink 10 d], remainder := none } := by
    simp only [BreakGlyphChain, BreakGlyphChain.loop, letterLink, GlyphLink.noGlyphOrSpace,
      hc1, hd1, spaceCharCode]
    norm_num
  have hreset : ({ letterLink 10 c with dx := 0 } : GlyphLink) = letterLink 0 c := rfl
  rw [hchain]
  simp only [wrapLines, hw, hwrap, wrapLoop, hbreak1, hdiscard, hreset, hbreak2]
  norm_num

/-- C3, an instance: the monospace example font. -/
theorem wrapLines_ab_cd_witness :
    wrapLines wrapSystem (monoFont.buildChain [97, 98, 32, 99, 100] 1) =
      WrapOutcome.lines
        [[letterLink 0 (monoGlyph 97), letterLink 10 (monoGlyph 98)],
         [letterLink 0 (monoGlyph 99), letterLink 10 (monoGlyph 100)]] :=
  wrapLines_ab_cd wrapSystem monoFont (monoGlyph 97) (monoGlyph 98) (monoGlyph 99)
    (monoGlyph 100) blankGlyph rfl rfl rfl rfl rfl rfl rfl rfl
    ⟨rfl, rfl, rfl, rfl⟩ ⟨rfl, rfl, rfl, rfl⟩ ⟨rfl, rfl, rfl, rfl⟩ ⟨rfl, rfl, rfl, rfl⟩
    ⟨rfl, rfl, by decide⟩

/-- C4: `SetBaseLineDelta d` returns false and leaves the state unchanged exactly when
`d ≥ 0` or `-d < lineHeight`; otherwise it returns true and stores `d` in `baseLineDelta`,
changing no other field.  With `lineHeight = 5`, `SetBaseLineDelta (-3)` fails and the
previous `baseLineDelta` is kept. -/
theorem SetBaseLineDelta_spec (s : System) (d : ℚ) :
    (((s.SetBaseLineDelta d).1 = false ∧ (s.SetBaseLineDelta d).2 = s) ↔
        (d ≥ 0 ∨ -d < s.lineHeight)) ∧
    (¬ (d ≥ 0 ∨ -d < s.lineHeight) →
        (s.SetBaseLineDelta d).1 = true ∧
        (s.SetBaseLineDelta d).2 = { s with baseLineDelta := d }) ∧
    ((System.new.SetBaseLineDelta (-3)).1 = false ∧
        (System.new.SetBaseLineDelta (-3)).2.baseLineDelta = -7 ∧
        System.new.lineHeight = 5) := by
  refine ⟨?_, ?_, ?_⟩
  · unfold System.SetBaseLineDelta
    by_cases h1 : d ≥ 0
    · simp [h1]
    · by_cases h2 : -d < s.lineHeight
      · simp [h1, h2]
      · simp [h1, h2]
  · intro h
    push_neg at h
    unfold System.SetBaseLineDelta
    have h1 : ¬ d ≥ 0 := not_le.mpr h.1
    have h2 : ¬ -d < s.lineHeight := not_lt.mpr h.2
    simp [h1, h2]
  · refine ⟨?_, ?_, rfl⟩
    · simp [System.SetBaseLineDelta, System.new]
      norm_num
    · simp [System.SetBaseLineDelta, System.new]
      norm_num

/-! ### Chain generation -/

theorem GenerateGlyphChain.loop_glyphs (glyphMap : List (Nat × Glyph)) (conversionFactor : ℚ)
    (text : List Nat) :
    ∀ prev : Option GlyphLink,
      (GenerateGlyphChain.loop glyphMap conversionFactor prev text).map GlyphLink.glyph =
        (text.takeWhile fun c => c ≠ 0).map fun c => glyphMap.lookup c := by
  induction text with
  | nil => intro prev; rfl
  | cons c rest ih =>
    intro prev
    by_cases hc : c = 0
    · simp [GenerateGlyphChain.loop, hc]
    · simp only [GenerateGlyphChain.loop, hc, if_false, List.map_cons, ih]
      cases prev <;> simp [List.takeWhile, hc, GlyphLink.fresh, GenerateGlyphChain.link]

theorem GenerateGlyphChain.loop_fallback (glyphMap : List (Nat × Glyph))
    (conversionFactor : ℚ) (text : List Nat) :
    ∀ (prev : Option GlyphLink) (link : GlyphLink),
      link ∈ GenerateGlyphChain.loop glyphMap conversionFactor prev text →
      link.glyph = none →
      link.w = 500 * conversionFactor ∧ link.h = 500 * conversionFactor := by
  induction text with
  | nil => intro prev link h; simp [GenerateGlyphChain.loop] at h
  | cons c rest ih =>
    intro prev link h hnone
    by_cases hc : c = 0
    · simp [GenerateGlyphChain.loop, hc] at h
    · simp only [GenerateGlyphChain.loop, hc, if_false, List.mem_cons] at h
      rcases h with h | h
      · subst h
        cases prev <;>
          · simp only [GenerateGlyphChain.link, GlyphLink.fresh] at hnone
            simp [GenerateGlyphChain.link, GlyphLink.fresh, GlyphLink.GetMetrics, hnone]
      · exact ih _ link h hnone

theorem takeWhile_ne_zero (text : List Nat) (h : ∀ c, c ∈ text → c ≠ 0) :
    (text.takeWhile fun c => c ≠ 0) = text := by
  induction text with
  | nil => rfl
  | cons c rest ih =>
    have hc : c ≠ 0 := h c (List.mem_cons_self c rest)
    have hr : ∀ x, x ∈ rest → x ≠ 0 := fun x hx => h x (List.mem_cons_of_mem c hx)
    simp [List.takeWhile, hc]
    exact hr

/-- C5: `GenerateGlyphChain` yields one link per character of the string, in order, each
holding the glyph the map has for its character, or no glyph and the fallback box of
`500 * conversionFactor` by `500 * conversionFactor` when the map has none; for the empty
string it yields the null pointer.  The characters of the string are the codes before its
terminating zero. -/
theorem GenerateGlyphChain_placements (glyphMap : List (Nat × Glyph)) (text : List Nat)
    (conversionFactor : ℚ) :
    ((GenerateGlyphChain glyphMap text conversionFactor).map GlyphLink.glyph =
        (text.takeWhile fun c => c ≠ 0).map fun c => glyphMap.lookup c) ∧
    ((∀ c, c ∈ text → c ≠ 0) →
      (GenerateGlyphChain glyphMap text conversionFactor).length = text.length ∧
      (GenerateGlyphChain glyphMap text conversionFactor).map GlyphLink.glyph =
        text.map fun c => glyphMap.lookup c) ∧
    (∀ link, link ∈ GenerateGlyphChain glyphMap text conversionFactor →
      link.glyph = none →
      link.w = 500 * conversionFactor ∧ link.h = 500 * conversionFactor) ∧
    GenerateGlyphChain glyphMap [] conversionFactor = [] := by
  have h1 := GenerateGlyphChain.loop_glyphs glyphMap conversionFactor text none
  refine ⟨h1, ?_, ?_, rfl⟩
  · intro hnz
    have h2 : (GenerateGlyphChain glyphMap text conversionFactor).map GlyphLink.glyph =
        text.map fun c => glyphMap.lookup c := by
      unfold GenerateGlyphChain
      rw [h1, takeWhile_ne_zero text hnz]
    refine ⟨?_, h2⟩
    have := congrArg List.length h2
    simpa using this
  · exact GenerateGlyphChain.loop_fallback glyphMap conversionFactor text none

/-- C5, an instance: the five characters of `"a?b c"`, the second of which has no glyph in
the monospace font, give five links, the second one a fallback box of width 500. -/
theorem GenerateGlyphChain_placements_witness :
    (GenerateGlyphChain monoFont.glyphMap [97, 63, 98, 32, 99] 1).length = 5 ∧
    (GenerateGlyphChain monoFont.glyphMap [97, 63, 98, 32, 99] 1).map GlyphLink.glyph =
      [some (monoGlyph 97), none, some (monoGlyph 98), some blankGlyph,
       some (monoGlyph 99)] ∧
    (GenerateGlyphChain monoFont.glyphMap [97, 63, 98, 32, 99] 1).map GlyphLink.w =
      [10, 500, 10, 0, 10] :=
  ⟨((GenerateGlyphChain_placements monoFont.glyphMap [97, 63, 98, 32, 99] 1).2.1
      (by decide)).1,
   by decide!, by decide!⟩

/-! ### Justification -/

theorem sum_dx_eq_runningOffset (chain : List GlyphLink) (n : Nat) (h : chain.length ≤ n + 1) :
    (chain.map GlyphLink.dx).sum = runningOffset chain n := by
  unfold runningOffset
  rw [List.take_of_length_le h]

theorem CalcGlyphChainLength_eq_rightEdge (head : GlyphLink) (rest : List GlyphLink) :
    CalcGlyphChainLength (head :: rest) = rightEdge (head :: rest) - head.dx := by
  have hlen : rest.length < (head :: rest).length := by simp
  obtain ⟨last, hlast⟩ : ∃ last, (head :: rest)[rest.length]? = some last :=
    ⟨(head :: rest)[rest.length], List.getElem?_eq_getElem hlen⟩
  have hgl : (head :: rest).getLast? = some last := by
    rw [List.getLast?_eq_getElem?]
    simpa using hlast
  unfold CalcGlyphChainLength rightEdge
  rw [CalcGlyphChainLength.loop_eq rest 0 head last hlast, hgl,
    sum_dx_eq_runningOffset (head :: rest) rest.length (by simp)]
  ring

theorem rightEdge_set_dx (head : GlyphLink) (rest : List GlyphLink) (dx : ℚ) :
    rightEdge ({ head with dx := dx } :: rest) = rightEdge (head :: rest) - head.dx + dx := by
  unfold rightEdge
  cases rest with
  | nil => simp; ring
  | cons a t => simp [List.getLast?_cons_cons]; ring

/-- C7: for a non-empty chain whose first link has `dx = 0` and whose measured length is
less than the line width, `JustifyGlyphChain` in mode `JUSTIFY_RIGHT` changes nothing but
the `dx` of the first link, and afterwards the right edge of the last link (the sum of all
`dx` plus the last link's `x + w`) equals the line width. -/
theorem JustifyGlyphChain_right (fontSystem : System) (head : GlyphLink)
    (rest : List GlyphLink)
    (hmode : fontSystem.justification = Justification.JUSTIFY_RIGHT)
    (hdx : head.dx = 0)
    (_hshort : CalcGlyphChainLength (head :: rest) < fontSystem.lineWidth) :
    ∃ dx, JustifyGlyphChain fontSystem (head :: rest) = some ({ head with dx := dx } :: rest) ∧
      rightEdge ({ head with dx := dx } :: rest) = fontSystem.lineWidth := by
  refine ⟨head.dx + (fontSystem.lineWidth - CalcGlyphChainLength (head :: rest)), ?_, ?_⟩
  · simp [JustifyGlyphChain, hmode]
  · rw [rightEdge_set_dx, CalcGlyphChainLength_eq_rightEdge, hdx]
    ring

/-- C7, an instance: the line `ab` of the monospace font, of length 20, right-justified at
line width 35: the first link gets `dx = 15` and the right edge becomes 35. -/
theorem JustifyGlyphChain_right_witness :
    JustifyGlyphChain { wrapSystem with justification := Justification.JUSTIFY_RIGHT }
        [letterLink 0 (monoGlyph 97), letterLink 10 (monoGlyph 98)] =
      some [letterLink 15 (monoGlyph 97), letterLink 10 (monoGlyph 98)] ∧
    ∃ dx, JustifyGlyphChain { wrapSystem with justification := Justification.JUSTIFY_RIGHT }
        [letterLink 0 (monoGlyph 97), letterLink 10 (monoGlyph 98)] =
          some [{ letterLink 0 (monoGlyph 97) with dx := dx }, letterLink 10 (monoGlyph 98)] ∧
      rightEdge [{ letterLink 0 (monoGlyph 97) with dx := dx }, letterLink 10 (monoGlyph 98)] =
        35 :=
  ⟨by decide!,
   JustifyGlyphChain_right { wrapSystem with justification := Justification.JUSTIFY_RIGHT }
     (letterLink 0 (monoGlyph 97)) [letterLink 10 (monoGlyph 98)] rfl rfl (by decide!)⟩

theorem CountGlyphsInChain_eq_zero (chain : List GlyphLink) (charCode : Nat)
    (h : ∀ link, link ∈ chain → link.hasCharCode charCode = false) :
    CountGlyphsInChain chain charCode = 0 := by
  induction chain with
  | nil => rfl
  | cons a t ih =>
    have ha := h a (List.mem_cons_self a t)
    have ht : ∀ link, link ∈ t → link.hasCharCode charCode = false :=
      fun link hl => h link (List.mem_cons_of_mem a hl)
    simp [CountGlyphsInChain, ha, ih ht]

/-- C8: on a chain with no link holding a blank, `JustifyGlyphChain` in mode
`JUSTIFY_LEFT_AND_RIGHT` leaves the chain exactly as mode `JUSTIFY_LEFT` does: every link
unchanged. -/
theorem JustifyGlyphChain_leftAndRight_no_blank (fontSystem : System)
    (chain : List GlyphLink)
    (hno : ∀ link, link ∈ chain → link.hasCharCode spaceCharCode = false) :
    JustifyGlyphChain
        { fontSystem with justification := Justification.JUSTIFY_LEFT_AND_RIGHT } chain =
      JustifyGlyphChain { fontSystem with justification := Justification.JUSTIFY_LEFT } chain ∧
    JustifyGlyphChain
        { fontSystem with justification := Justification.JUSTIFY_LEFT_AND_RIGHT } chain =
      some chain := by
  have hc := CountGlyphsInChain_eq_zero chain spaceCharCode hno
  simp [JustifyGlyphChain, hc]

/-- C8, an instance: the line `ab` of the monospace font at line width 35. -/
theorem JustifyGlyphChain_leftAndRight_no_blank_witness :
    JustifyGlyphChain
        { wrapSystem with justification := Justification.JUSTIFY_LEFT_AND_RIGHT }
        [letterLink 0 (monoGlyph 97), letterLink 10 (monoGlyph 98)] =
      JustifyGlyphChain { wrapSystem with justification := Justification.JUSTIFY_LEFT }
        [letterLink 0 (monoGlyph 97), letterLink 10 (monoGlyph 98)] ∧
    JustifyGlyphChain
        { wrapSystem with justification := Justification.JUSTIFY_LEFT_AND_RIGHT }
        [letterLink 0 (monoGlyph 97), letterLink 10 (monoGlyph 98)] =
      some [letterLink 0 (monoGlyph 97), letterLink 10 (monoGlyph 98)] :=
  JustifyGlyphChain_leftAndRight_no_blank wrapSystem
    [letterLink 0 (monoGlyph 97), letterLink 10 (monoGlyph 98)] (by decide)

/-! ### Steps of the generation and kerning loops -/

theorem getLast?_or_cons (a : GlyphLink) (chain : List GlyphLink) (prev : Option GlyphLink) :
    ((a :: chain).getLast?).or prev = (chain.getLast?).or (some a) := by
  rw [List.getLast?_cons]
  cases chain.getLast? <;> rfl

theorem GenerateGlyphChain.genLoop_cons (glyphMap : List (Nat × Glyph)) (conversionFactor : ℚ)
    (prev : Option GlyphLink) (c : Nat) (rest : List Nat) (hc : c ≠ 0) :
    GenerateGlyphChain.loop glyphMap conversionFactor prev (c :: rest) =
      GenerateGlyphChain.link glyphMap conversionFactor prev c ::
        GenerateGlyphChain.loop glyphMap conversionFactor
          (some (GenerateGlyphChain.link glyphMap conversionFactor prev c)) rest := by
  simp [GenerateGlyphChain.loop, hc]

theorem KernGlyphChain.kernLoop_cons (kerningMap : List (Nat × FT_Vector)) (conversionFactor : ℚ)
    (prev : Option GlyphLink) (a : GlyphLink) (rest : List GlyphLink) :
    KernGlyphChain.loop kerningMap conversionFactor prev (a :: rest) =
      KernGlyphChain.kern kerningMap conversionFactor prev a ::
        KernGlyphChain.loop kerningMap conversionFactor
          (some (KernGlyphChain.kern kerningMap conversionFactor prev a)) rest := by
  simp [KernGlyphChain.loop]

/-- The string with one more character: the chain of the string followed by the link of
the new character, built after the last link of the chain. -/
theorem GenerateGlyphChain.genLoop_append (glyphMap : List (Nat × Glyph)) (conversionFactor : ℚ)
    (text : List Nat) (c : Nat) :
    ∀ prev : Option GlyphLink, (∀ x, x ∈ text → x ≠ 0) →
      GenerateGlyphChain.loop glyphMap conversionFactor prev (text ++ [c]) =
        GenerateGlyphChain.loop glyphMap conversionFactor prev text ++
          GenerateGlyphChain.loop glyphMap conversionFactor
            (((GenerateGlyphChain.loop glyphMap conversionFactor prev text).getLast?).or prev)
            [c] := by
  induction text with
  | nil => intro prev _; simp [GenerateGlyphChain.loop]
  | cons a rest ih =>
    intro prev h
    have ha : a ≠ 0 := h a (List.mem_cons_self a rest)
    have hr : ∀ x, x ∈ rest → x ≠ 0 := fun x hx => h x (List.mem_cons_of_mem a hx)
    rw [List.cons_append, GenerateGlyphChain.genLoop_cons _ _ _ _ _ ha,
      GenerateGlyphChain.genLoop_cons _ _ _ _ _ ha, ih _ hr, getLast?_or_cons]
    rfl

theorem KernGlyphChain.kernLoop_append (kerningMap : List (Nat × FT_Vector))
    (conversionFactor : ℚ) (chain : List GlyphLink) (link : GlyphLink) :
    ∀ prev : Option GlyphLink,
      KernGlyphChain.loop kerningMap conversionFactor prev (chain ++ [link]) =
        KernGlyphChain.loop kerningMap conversionFactor prev chain ++
          [KernGlyphChain.kern kerningMap conversionFactor
            (((KernGlyphChain.loop kerningMap conversionFactor prev chain).getLast?).or prev)
            link] := by
  induction chain with
  | nil => intro prev; simp [KernGlyphChain.loop]
  | cons a rest ih =>
    intro prev
    rw [List.cons_append, KernGlyphChain.kernLoop_cons, KernGlyphChain.kernLoop_cons, ih,
      getLast?_or_cons]
    rfl

theorem CalcGlyphChainLength_append (chain : List GlyphLink) (last link : GlyphLink)
    (h : chain.getLast? = some last) :
    CalcGlyphChainLength (chain ++ [link]) =
      CalcGlyphChainLength chain - (last.x + last.w) + (link.dx + link.x + link.w) := by
  cases chain with
  | nil => simp at h
  | cons head rest =>
    rw [List.cons_append, CalcGlyphChainLength_eq_rightEdge, CalcGlyphChainLength_eq_rightEdge]
    unfold rightEdge
    rw [← List.cons_append, List.getLast?_concat, h]
    simp
    ring


theorem KernGlyphChain.kern_fields (kerningMap : List (Nat × FT_Vector)) (conversionFactor : ℚ)
    (prev : Option GlyphLink) (link : GlyphLink) :
    (KernGlyphChain.kern kerningMap conversionFactor prev link).x = link.x ∧
    (KernGlyphChain.kern kerningMap conversionFactor prev link).w = link.w ∧
    (KernGlyphChain.kern kerningMap conversionFactor prev link).glyph = link.glyph := by
  unfold KernGlyphChain.kern
  split
  · exact ⟨rfl, rfl, rfl⟩
  · split
    · split <;> exact ⟨rfl, rfl, rfl⟩
    · exact ⟨rfl, rfl, rfl⟩

theorem KernGlyphChain.kernLoop_getLast (kerningMap : List (Nat × FT_Vector))
    (conversionFactor : ℚ) (chain : List GlyphLink) :
    ∀ (prev : Option GlyphLink) (last : GlyphLink), chain.getLast? = some last →
      ∃ kerned, (KernGlyphChain.loop kerningMap conversionFactor prev chain).getLast? =
          some kerned ∧
        kerned.x = last.x ∧ kerned.w = last.w ∧ kerned.glyph = last.glyph := by
  induction chain with
  | nil => intro prev last h; simp at h
  | cons a rest ih =>
    intro prev last h
    rw [KernGlyphChain.kernLoop_cons]
    cases rest with
    | nil =>
      simp only [List.getLast?_singleton, Option.some.injEq] at h
      subst h
      exact ⟨_, rfl, KernGlyphChain.kern_fields kerningMap conversionFactor prev a⟩
    | cons b t =>
      rw [List.getLast?_cons_cons] at h
      obtain ⟨kerned, hk, hf⟩ := ih (some (KernGlyphChain.kern kerningMap conversionFactor prev a)) last h
      refine ⟨kerned, ?_, hf⟩
      rw [KernGlyphChain.kernLoop_cons, List.getLast?_cons_cons, ← KernGlyphChain.kernLoop_cons]
      exact hk

theorem KernGlyphChain.loop_empty_map (conversionFactor : ℚ) (chain : List GlyphLink) :
    ∀ prev : Option GlyphLink, KernGlyphChain.loop [] conversionFactor prev chain = chain := by
  induction chain with
  | nil => intro prev; rfl
  | cons a rest ih =>
    intro prev
    have hk : KernGlyphChain.kern [] conversionFactor prev a = a := by
      unfold KernGlyphChain.kern
      split
      · rfl
      · split
        · simp [List.lookup]
        · rfl
    rw [KernGlyphChain.kernLoop_cons, hk, ih]

theorem Font.buildChain_eq (font : Font) (text : List Nat) (conversionFactor : ℚ) :
    font.buildChain text conversionFactor =
      KernGlyphChain.loop font.kerningMap conversionFactor none
        (GenerateGlyphChain.loop font.glyphMap conversionFactor none text) := by
  unfold Font.buildChain KernGlyphChain GenerateGlyphChain
  simp only []
  split
  · rfl
  · rename_i h
    have : font.kerningMap = [] := by
      cases hk : font.kerningMap with
      | nil => rfl
      | cons a t => rw [hk] at h; simp at h
    rw [this, KernGlyphChain.loop_empty_map]

theorem GenerateGlyphChain.loop_after_zero (glyphMap : List (Nat × Glyph))
    (conversionFactor : ℚ) (text more : List Nat) (h : 0 ∈ text) :
    ∀ prev : Option GlyphLink,
      GenerateGlyphChain.loop glyphMap conversionFactor prev (text ++ more) =
        GenerateGlyphChain.loop glyphMap conversionFactor prev text := by
  induction text with
  | nil => simp at h
  | cons a rest ih =>
    intro prev
    by_cases ha : a = 0
    · subst ha
      simp [GenerateGlyphChain.loop]
    · have hr : 0 ∈ rest := by
        rcases List.mem_cons.mp h with h0 | h0
        · exact absurd h0.symm ha
        · exact h0
      rw [List.cons_append, GenerateGlyphChain.genLoop_cons _ _ _ _ _ ha,
        GenerateGlyphChain.genLoop_cons _ _ _ _ _ ha, ih hr]

theorem GenerateGlyphChain.link_fields (glyphMap : List (Nat × Glyph)) (conversionFactor : ℚ)
    (prev : Option GlyphLink) (c : Nat) :
    (GenerateGlyphChain.link glyphMap conversionFactor prev c).glyph = glyphMap.lookup c ∧
    (GenerateGlyphChain.link glyphMap conversionFactor prev c).w =
      ((GlyphLink.fresh (glyphMap.lookup c)).GetMetrics.width : ℚ) * conversionFactor ∧
    ((GenerateGlyphChain.link glyphMap conversionFactor prev c).x = 0 ∨
      (GenerateGlyphChain.link glyphMap conversionFactor prev c).x =
        ((GlyphLink.fresh (glyphMap.lookup c)).GetMetrics.horiBearingX : ℚ) * conversionFactor) := by
  cases prev with
  | none => exact ⟨rfl, rfl, Or.inl rfl⟩
  | some p => exact ⟨rfl, rfl, Or.inr rfl⟩

theorem GenerateGlyphChain.genLoop_getLast (glyphMap : List (Nat × Glyph)) (conversionFactor : ℚ)
    (text : List Nat) :
    ∀ (prev : Option GlyphLink) (c : Nat), (∀ x, x ∈ text → x ≠ 0) → text.getLast? = some c →
      ∃ p, (GenerateGlyphChain.loop glyphMap conversionFactor prev text).getLast? =
        some (GenerateGlyphChain.link glyphMap conversionFactor p c) := by
  induction text with
  | nil => intro prev c _ h; simp at h
  | cons a rest ih =>
    intro prev c hnz h
    have ha : a ≠ 0 := hnz a (List.mem_cons_self a rest)
    have hr : ∀ x, x ∈ rest → x ≠ 0 := fun x hx => hnz x (List.mem_cons_of_mem a hx)
    rw [GenerateGlyphChain.genLoop_cons _ _ _ _ _ ha]
    cases rest with
    | nil =>
      simp only [List.getLast?_singleton, Option.some.injEq] at h
      subst h
      exact ⟨prev, rfl⟩
    | cons b t =>
      rw [List.getLast?_cons_cons] at h
      have hb : b ≠ 0 := hr b (List.mem_cons_self b t)
      obtain ⟨p, hp⟩ := ih (some (GenerateGlyphChain.link glyphMap conversionFactor prev a)) c hr h
      refine ⟨p, ?_⟩
      rw [GenerateGlyphChain.genLoop_cons _ _ _ _ _ hb, List.getLast?_cons_cons,
        ← GenerateGlyphChain.genLoop_cons _ _ _ _ _ hb]
      exact hp


/-! ### Text length under appending a character, in `GLfloat` arithmetic -/

theorem Arith.genLoopF_cons {F : Type} (ops : GLfloatArith F) (glyphMap : List (Nat × Glyph))
    (conversionFactor : F) (prev : Option (Arith.GlyphLink F)) (c : Nat) (rest : List Nat)
    (hc : c ≠ 0) :
    Arith.GenerateGlyphChain.loop ops glyphMap conversionFactor prev (c :: rest) =
      Arith.GenerateGlyphChain.link ops glyphMap conversionFactor prev c ::
        Arith.GenerateGlyphChain.loop ops glyphMap conversionFactor
          (some (Arith.GenerateGlyphChain.link ops glyphMap conversionFactor prev c)) rest := by
  simp [Arith.GenerateGlyphChain.loop, hc]

theorem Arith.kernLoopF_cons {F : Type} (ops : GLfloatArith F)
    (kerningMap : List (Nat × FT_Vector)) (conversionFactor : F)
    (prev : Option (Arith.GlyphLink F)) (a : Arith.GlyphLink F)
    (rest : List (Arith.GlyphLink F)) :
    Arith.KernGlyphChain.loop ops kerningMap conversionFactor prev (a :: rest) =
      Arith.KernGlyphChain.kern ops kerningMap conversionFactor prev a ::
        Arith.KernGlyphChain.loop ops kerningMap conversionFactor
          (some (Arith.KernGlyphChain.kern ops kerningMap conversionFactor prev a)) rest := by
  simp [Arith.KernGlyphChain.loop]

theorem Arith.toExact_link (glyphMap : List (Nat × Glyph)) (conversionFactor : ℚ)
    (prev : Option (Arith.GlyphLink ℚ)) (c : Nat) :
    (Arith.GenerateGlyphChain.link exactArith glyphMap conversionFactor prev c).toExact =
      FontSys.GenerateGlyphChain.link glyphMap conversionFactor
        (prev.map Arith.GlyphLink.toExact) c := by
  cases prev <;> rfl

theorem Arith.toExact_genLoop (glyphMap : List (Nat × Glyph)) (conversionFactor : ℚ)
    (text : List Nat) :
    ∀ prev : Option (Arith.GlyphLink ℚ),
      (Arith.GenerateGlyphChain.loop exactArith glyphMap conversionFactor prev text).map
          Arith.GlyphLink.toExact =
        FontSys.GenerateGlyphChain.loop glyphMap conversionFactor
          (prev.map Arith.GlyphLink.toExact) text := by
  induction text with
  | nil => intro prev; rfl
  | cons c rest ih =>
    intro prev
    by_cases hc : c = 0
    · simp [Arith.GenerateGlyphChain.loop, FontSys.GenerateGlyphChain.loop, hc]
    · rw [Arith.genLoopF_cons exactArith _ _ _ _ _ hc,
        FontSys.GenerateGlyphChain.genLoop_cons _ _ _ _ _ hc, List.map_cons, ih,
        Arith.toExact_link]
      simp only [Option.map_some', Arith.toExact_link]

theorem Arith.toExact_kern (kerningMap : List (Nat × FT_Vector)) (conversionFactor : ℚ)
    (prev : Option (Arith.GlyphLink ℚ)) (link : Arith.GlyphLink ℚ) :
    (Arith.KernGlyphChain.kern exactArith kerningMap conversionFactor prev link).toExact =
      FontSys.KernGlyphChain.kern kerningMap conversionFactor
        (prev.map Arith.GlyphLink.toExact) link.toExact := by
  cases prev with
  | none => rfl
  | some p =>
    simp only [Arith.KernGlyphChain.kern, FontSys.KernGlyphChain.kern, Option.map_some']
    have hp : p.toExact.glyph = p.glyph := rfl
    have hl : link.toExact.glyph = link.glyph := rfl
    rw [hp, hl]
    cases p.glyph with
    | none => rfl
    | some pg =>
      cases link.glyph with
      | none => rfl
      | some g =>
        simp only []
        cases kerningMap.lookup (MakeKerningKey pg.glyphIndex g.glyphIndex) <;> rfl

theorem Arith.toExact_kernLoop (kerningMap : List (Nat × FT_Vector)) (conversionFactor : ℚ)
    (chain : List (Arith.GlyphLink ℚ)) :
    ∀ prev : Option (Arith.GlyphLink ℚ),
      (Arith.KernGlyphChain.loop exactArith kerningMap conversionFactor prev chain).map
          Arith.GlyphLink.toExact =
        FontSys.KernGlyphChain.loop kerningMap conversionFactor
          (prev.map Arith.GlyphLink.toExact) (chain.map Arith.GlyphLink.toExact) := by
  induction chain with
  | nil => intro prev; rfl
  | cons a rest ih =>
    intro prev
    rw [Arith.kernLoopF_cons, List.map_cons, List.map_cons,
      FontSys.KernGlyphChain.kernLoop_cons, ih, Arith.toExact_kern]
    simp only [Option.map_some', Arith.toExact_kern]

theorem Arith.toExact_buildChain (font : Font) (text : List Nat) (conversionFactor : ℚ) :
    (Arith.buildChain exactArith font text conversionFactor).map Arith.GlyphLink.toExact =
      font.buildChain text conversionFactor := by
  unfold Arith.buildChain Font.buildChain Arith.GenerateGlyphChain Arith.KernGlyphChain
    FontSys.GenerateGlyphChain FontSys.KernGlyphChain
  simp only []
  split
  · rw [Arith.toExact_kernLoop, Arith.toExact_genLoop]
    rfl
  · rw [Arith.toExact_genLoop]
    rfl

theorem Arith.toExact_calcLoop (chain : List (Arith.GlyphLink ℚ)) :
    ∀ length : ℚ,
      Arith.CalcGlyphChainLength.loop exactArith length chain =
        FontSys.CalcGlyphChainLength.loop length (chain.map Arith.GlyphLink.toExact) := by
  induction chain with
  | nil => intro length; rfl
  | cons a rest ih =>
    intro length
    cases rest with
    | nil => rfl
    | cons b t =>
      simp only [Arith.CalcGlyphChainLength.loop, List.map_cons,
        FontSys.CalcGlyphChainLength.loop]
      exact ih _

/-- In exact arithmetic the length computed for a text is the measured length of the
chain the exact embedding builds for it. -/
theorem Arith.calc_buildChain_exact (font : Font) (text : List Nat) (conversionFactor : ℚ) :
    Arith.CalcGlyphChainLength exactArith
        (Arith.buildChain exactArith font text conversionFactor) =
      FontSys.CalcGlyphChainLength (font.buildChain text conversionFactor) := by
  unfold Arith.CalcGlyphChainLength FontSys.CalcGlyphChainLength
  rw [Arith.toExact_calcLoop, Arith.toExact_buildChain]
  rfl

theorem GenerateGlyphChain.genLoop_adjacent (glyphMap : List (Nat × Glyph))
    (conversionFactor : ℚ) (text : List Nat) :
    ∀ (prev : Option GlyphLink) (i : Nat) (a b : GlyphLink),
      (GenerateGlyphChain.loop glyphMap conversionFactor prev text)[i]? = some a →
      (GenerateGlyphChain.loop glyphMap conversionFactor prev text)[i + 1]? = some b →
      b.dx = (a.GetMetrics.horiAdvance : ℚ) * conversionFactor := by
  induction text with
  | nil => intro prev i a b h; simp [GenerateGlyphChain.loop] at h
  | cons c rest ih =>
    intro prev i a b ha hb
    by_cases hc : c = 0
    · simp [GenerateGlyphChain.loop, hc] at ha
    · rw [GenerateGlyphChain.genLoop_cons _ _ _ _ _ hc] at ha hb
      cases i with
      | zero =>
        simp only [List.getElem?_cons_zero, Option.some.injEq] at ha
        simp only [Nat.zero_add, List.getElem?_cons_succ] at hb
        cases rest with
        | nil => simp [GenerateGlyphChain.loop] at hb
        | cons d rest2 =>
          by_cases hd : d = 0
          · simp [GenerateGlyphChain.loop, hd] at hb
          · rw [GenerateGlyphChain.genLoop_cons _ _ _ _ _ hd] at hb
            simp only [List.getElem?_cons_zero, Option.some.injEq] at hb
            rw [← hb, ← ha]
            rfl
      | succ i =>
        simp only [List.getElem?_cons_succ] at ha hb
        exact ih _ i a b ha hb

theorem KernGlyphChain.kernLoop_adjacent (kerningMap : List (Nat × FT_Vector))
    (conversionFactor : ℚ) (chain : List GlyphLink) :
    ∀ (prev : Option GlyphLink) (i : Nat) (a b : GlyphLink),
      (KernGlyphChain.loop kerningMap conversionFactor prev chain)[i]? = some a →
      (KernGlyphChain.loop kerningMap conversionFactor prev chain)[i + 1]? = some b →
      ∃ a0 b0, chain[i]? = some a0 ∧ chain[i + 1]? = some b0 ∧ a.glyph = a0.glyph ∧
        b = KernGlyphChain.kern kerningMap conversionFactor (some a) b0 := by
  induction chain with
  | nil => intro prev i a b h; simp [KernGlyphChain.loop] at h
  | cons c rest ih =>
    intro prev i a b ha hb
    rw [KernGlyphChain.kernLoop_cons] at ha hb
    cases i with
    | zero =>
      simp only [List.getElem?_cons_zero, Option.some.injEq] at ha
      simp only [Nat.zero_add, List.getElem?_cons_succ] at hb
      cases rest with
      | nil => simp [KernGlyphChain.loop] at hb
      | cons d rest2 =>
        rw [KernGlyphChain.kernLoop_cons] at hb
        simp only [List.getElem?_cons_zero, Option.some.injEq] at hb
        refine ⟨c, d, rfl, by simp, ?_, ?_⟩
        · rw [← ha]
          exact (KernGlyphChain.kern_fields kerningMap conversionFactor prev c).2.2
        · rw [← hb, ← ha]
    | succ i =>
      simp only [List.getElem?_cons_succ] at ha hb
      obtain ⟨a0, b0, h1, h2, h3, h4⟩ := ih _ i a b ha hb
      exact ⟨a0, b0, by simpa using h1, by simpa using h2, h3, h4⟩

theorem GetMetrics_congr (a b : GlyphLink) (h : a.glyph = b.glyph) :
    a.GetMetrics = b.GetMetrics := by
  unfold GlyphLink.GetMetrics
  rw [h]

theorem KernGlyphChain.kernLoop_erase_dx (kerningMap : List (Nat × FT_Vector))
    (conversionFactor : ℚ) (chain : List GlyphLink) :
    ∀ prev : Option GlyphLink,
      (KernGlyphChain.loop kerningMap conversionFactor prev chain).map
          (fun link => { link with dx := 0 }) =
        chain.map fun link => { link with dx := 0 } := by
  induction chain with
  | nil => intro prev; rfl
  | cons c rest ih =>
    intro prev
    rw [KernGlyphChain.kernLoop_cons, List.map_cons, List.map_cons, ih]
    congr 1
    unfold KernGlyphChain.kern
    split
    · rfl
    · split
      · split <;> rfl
      · rfl

/-- C11: in the chain `GenerateGlyphChain` builds and `KernGlyphChain` then kerns, the
first link has `dx = 0`, and the `dx` of every further link is the horizontal advance of
the link before it times the conversion factor, plus the kerning `x` of the table times
the conversion factor when both links have a glyph and the table has an entry under the
key of their glyph indices, and plus nothing otherwise.  On every chain `KernGlyphChain`
changes no field but `dx`, and it leaves a chain of at most one link as it is. -/
theorem KernGlyphChain_dx (glyphMap : List (Nat × Glyph)) (kerningMap : List (Nat × FT_Vector))
    (text : List Nat) (conversionFactor : ℚ) :
    (∀ first,
      (KernGlyphChain kerningMap (GenerateGlyphChain glyphMap text conversionFactor)
        conversionFactor).head? = some first → first.dx = 0) ∧
    (∀ i prev cur,
      (KernGlyphChain kerningMap (GenerateGlyphChain glyphMap text conversionFactor)
        conversionFactor)[i]? = some prev →
      (KernGlyphChain kerningMap (GenerateGlyphChain glyphMap text conversionFactor)
        conversionFactor)[i + 1]? = some cur →
      (∀ prevGlyph glyph kerning, prev.glyph = some prevGlyph → cur.glyph = some glyph →
        kerningMap.lookup (MakeKerningKey prevGlyph.glyphIndex glyph.glyphIndex) =
          some kerning →
        cur.dx = (prev.GetMetrics.horiAdvance : ℚ) * conversionFactor +
          (kerning.x : ℚ) * conversionFactor) ∧
      ((prev.glyph = none ∨ cur.glyph = none ∨
          ∃ prevGlyph glyph, prev.glyph = some prevGlyph ∧ cur.glyph = some glyph ∧
            kerningMap.lookup (MakeKerningKey prevGlyph.glyphIndex glyph.glyphIndex) = none) →
        cur.dx = (prev.GetMetrics.horiAdvance : ℚ) * conversionFactor)) ∧
    (∀ chain : List GlyphLink,
      (KernGlyphChain kerningMap chain conversionFactor).map
          (fun link => { link with dx := 0 }) =
        chain.map fun link => { link with dx := 0 }) ∧
    (∀ chain : List GlyphLink, chain.length ≤ 1 →
      KernGlyphChain kerningMap chain conversionFactor = chain) := by
  refine ⟨?_, ?_, ?_, ?_⟩
  · exact headDxZero_KernGlyphChain kerningMap _ conversionFactor
      (headDxZero_GenerateGlyphChain glyphMap text conversionFactor)
  · intro i prev cur hp hc
    unfold KernGlyphChain GenerateGlyphChain at hp hc
    obtain ⟨a0, b0, h1, h2, h3, h4⟩ :=
      KernGlyphChain.kernLoop_adjacent kerningMap conversionFactor _ none i prev cur hp hc
    have hdx : b0.dx = (prev.GetMetrics.horiAdvance : ℚ) * conversionFactor := by
      rw [GetMetrics_congr prev a0 h3]
      exact GenerateGlyphChain.genLoop_adjacent glyphMap conversionFactor text none i a0 b0
        h1 h2
    have hg : cur.glyph = b0.glyph := by
      rw [h4]
      exact (KernGlyphChain.kern_fields kerningMap conversionFactor (some prev) b0).2.2
    constructor
    · intro prevGlyph glyph kerning hpg hcg hk
      rw [hg] at hcg
      rw [h4]
      simp only [KernGlyphChain.kern, hpg, hcg, hk, hdx]
    · intro hcase
      rw [h4]
      rcases hcase with hn | hn | ⟨prevGlyph, glyph, hpg, hcg, hk⟩
      · simp only [KernGlyphChain.kern, hn, hdx]
      · rw [hg] at hn
        cases hpg : prev.glyph <;> simp only [KernGlyphChain.kern, hn, hpg, hdx]
      · rw [hg] at hcg
        simp only [KernGlyphChain.kern, hpg, hcg, hk, hdx]
  · intro chain
    exact KernGlyphChain.kernLoop_erase_dx kerningMap conversionFactor chain none
  · intro chain hlen
    unfold KernGlyphChain
    cases chain with
    | nil => rfl
    | cons a rest =>
      cases rest with
      | nil => rfl
      | cons b t => simp at hlen

/-- C11, an instance: in the monospace font with a kerning entry of `-2` for the pair
`a`, `b`, the chain of `"ab?a"` has the `dx` values 0, 10 - 2, 10 and 0: the pair `a`, `b`
is kerned, the link without a glyph is not, and the link after it follows the fallback
advance 0. -/
theorem KernGlyphChain_dx_witness :
    (KernGlyphChain kernedFont.kerningMap
        (GenerateGlyphChain kernedFont.glyphMap [97, 98, 63, 97] 1) 1).map GlyphLink.dx =
      [0, 8, 10, 0] ∧
    (∀ first,
      (KernGlyphChain kernedFont.kerningMap
        (GenerateGlyphChain kernedFont.glyphMap [97, 98, 63, 97] 1) 1).head? = some first →
      first.dx = 0) :=
  ⟨by decide!,
   (KernGlyphChain_dx kernedFont.glyphMap kernedFont.kerningMap [97, 98, 63, 97] 1).1⟩

/-! ### The wrap loop on trailing blanks -/

/-- C13, the failing input: the text `"abc  "` (two trailing blanks) in the monospace font
at line width 35 with word wrap on.  The second blank is the out-of-bounds point and the
first blank the break opportunity before it, so `BreakGlyphChain` returns the two blanks
as remainder; no link of that remainder has a glyph other than a blank, the loop that
discards leading blanks reads past the last link, and `DrawText` ends in a null
dereference instead of returning. -/
theorem wrapLines_trailing_blanks_nullDereference :
    wrapSystem.lineWidth > 0 ∧ wrapSystem.wordWrap = true ∧
    (BreakGlyphChain wrapSystem.lineWidth
        (monoFont.buildChain [97, 98, 99, 32, 32] 1)).remainder =
      some ((monoFont.buildChain [97, 98, 99, 32, 32] 1).drop 3) ∧
    (∀ link, link ∈ (monoFont.buildChain [97, 98, 99, 32, 32] 1).drop 3 →
      link.noGlyphOrSpace = true) ∧
    discardLeading ((monoFont.buildChain [97, 98, 99, 32, 32] 1).drop 3) = none ∧
    wrapLines wrapSystem (monoFont.buildChain [97, 98, 99, 32, 32] 1) =
      WrapOutcome.nullDereference ∧
    monoFont.DrawText wrapSystem [97, 98, 99, 32, 32] false 0 =
      DrawOutcome.nullDereference := by
  decide!

/-! ### The kerning table built by `Font::Initialize` -/

/-- On the constant `charCodeString` the inner kerning loop visits the 52 letters and
stops at the digit `0`, whose code 48 is not above its position 52. -/
theorem visitedRight_supportedCharCodes :
    visitedRight 0 supportedCharCodes = supportedCharCodes.take 52 ∧
    supportedCharCodes[52]? = some 48 := by
  decide

theorem Font.Initialize.kernInner_entries (face : FT_Face) (leftGlyphIndex : Nat)
    (charCodes : List Nat) :
    ∀ (j : Nat) (kerningMap : List (Nat × FT_Vector)) (entry : Nat × FT_Vector),
      entry ∈ Font.Initialize.kernInner face leftGlyphIndex j charCodes kerningMap →
      entry ∈ kerningMap ∨
        ∃ right, right ∈ visitedRight j charCodes ∧ face.charIndex right ≠ 0 ∧
          entry = (MakeKerningKey leftGlyphIndex (face.charIndex right),
                   face.kerning leftGlyphIndex (face.charIndex right)) := by
  induction charCodes with
  | nil => intro j kerningMap entry h; exact Or.inl h
  | cons c rest ih =>
    intro j kerningMap entry h
    simp only [Font.Initialize.kernInner] at h
    by_cases hj : j < c
    · simp only [hj, if_true] at h
      simp only [visitedRight, hj, if_true, List.mem_cons]
      by_cases hc : face.charIndex c = 0
      · simp only [hc, if_true] at h
        rcases ih (j + 1) kerningMap entry h with h1 | ⟨right, hr, hr0, he⟩
        · exact Or.inl h1
        · exact Or.inr ⟨right, Or.inr hr, hr0, he⟩
      · simp only [hc, if_false] at h
        rcases ih (j + 1) _ entry h with h1 | ⟨right, hr, hr0, he⟩
        · simp only [mapAssign, List.mem_cons] at h1
          rcases h1 with h1 | h1
          · exact Or.inr ⟨c, Or.inl rfl, hc, h1⟩
          · exact Or.inl h1
        · exact Or.inr ⟨right, Or.inr hr, hr0, he⟩
    · simp only [hj, if_false] at h
      exact Or.inl h

theorem Font.Initialize.kernOuter_entries (face : FT_Face) (charCodeString : List Nat)
    (leftCodes : List Nat) :
    ∀ (kerningMap : List (Nat × FT_Vector)) (entry : Nat × FT_Vector),
      entry ∈ Font.Initialize.kernOuter face charCodeString leftCodes kerningMap →
      entry ∈ kerningMap ∨
        ∃ left right, left ∈ leftCodes ∧ right ∈ visitedRight 0 charCodeString ∧
          face.charIndex left ≠ 0 ∧ face.charIndex right ≠ 0 ∧
          entry = (MakeKerningKey (face.charIndex left) (face.charIndex right),
                   face.kerning (face.charIndex left) (face.charIndex right)) := by
  induction leftCodes with
  | nil => intro kerningMap entry h; exact Or.inl h
  | cons c rest ih =>
    intro kerningMap entry h
    simp only [Font.Initialize.kernOuter] at h
    by_cases hc0 : c = 0
    · simp only [hc0, if_true] at h
      exact Or.inl h
    · simp only [hc0, if_false] at h
      by_cases hc : face.charIndex c = 0
      · simp only [hc, if_true] at h
        rcases ih kerningMap entry h with h1 | ⟨left, right, hl, hr, hl0, hr0, he⟩
        · exact Or.inl h1
        · exact Or.inr ⟨left, right, List.mem_cons_of_mem c hl, hr, hl0, hr0, he⟩
      · simp only [hc, if_false] at h
        rcases ih _ entry h with h1 | ⟨left, right, hl, hr, hl0, hr0, he⟩
        · rcases Font.Initialize.kernInner_entries face (face.charIndex c) charCodeString 0
            kerningMap entry h1 with h2 | ⟨right, hr, hr0, he⟩
          · exact Or.inl h2
          · exact Or.inr ⟨c, right, List.mem_cons_self c rest, hr, hc, hr0, he⟩
        · exact Or.inr ⟨left, right, List.mem_cons_of_mem c hl, hr, hl0, hr0, he⟩

/-- Whatever the face, every entry of the kerning table a successful `Font::Initialize`
leaves behind belongs to a pair whose right character is one of the 52 letters: no pair
with a digit, a punctuation character or the blank on the right is ever stored. -/
theorem Font.Initialize_kerningMap_entries (font result : Font) (face : FT_Face)
    (h : Font.Initialize font face = some result) (entry : Nat × FT_Vector)
    (he : entry ∈ result.kerningMap) :
    ∃ left right, left ∈ supportedCharCodes ∧ right ∈ supportedCharCodes.take 52 ∧
      face.charIndex left ≠ 0 ∧ face.charIndex right ≠ 0 ∧
      entry = (MakeKerningKey (face.charIndex left) (face.charIndex right),
               face.kerning (face.charIndex left) (face.charIndex right)) := by
  unfold Font.Initialize at h
  split at h
  · simp at h
  · split at h
    · simp at h
    · split at h
      · simp at h
      · split at h
        · simp at h
        · simp only [Option.some.injEq] at h
          rw [← h] at he
          simp only [] at he
          split at he
          · rcases Font.Initialize.kernOuter_entries face supportedCharCodes
              supportedCharCodes [] entry he with h1 | h1
            · simp at h1
            · rw [visitedRight_supportedCharCodes.1] at h1
              exact h1
          · simp at he

/-- C12, the failing input: a fresh font initialized on the example face, which has
kerning data and a glyph for every supported character.  The call succeeds and the pair
`a`, `b` has its entry, with the kerning the face reports; but the pair `a`, `0` has no
entry under `MakeKerningKey`, although both characters have a glyph: the inner loop stops
at the first digit.  The pair `0`, `a` is stored. -/
theorem Initialize_kerning_misses_digit :
    exampleFace.hasKerning = true ∧
    97 ∈ supportedCharCodes ∧ 98 ∈ supportedCharCodes ∧ 48 ∈ supportedCharCodes ∧
    exampleFace.charIndex 97 ≠ 0 ∧ exampleFace.charIndex 98 ≠ 0 ∧
    exampleFace.charIndex 48 ≠ 0 ∧
    (Font.Initialize Font.new exampleFace).isSome = true ∧
    (Font.Initialize Font.new exampleFace).map
        (fun font => font.kerningMap.lookup
          (MakeKerningKey (exampleFace.charIndex 97) (exampleFace.charIndex 98))) =
      some (some (exampleFace.kerning (exampleFace.charIndex 97) (exampleFace.charIndex 98))) ∧
    (Font.Initialize Font.new exampleFace).map
        (fun font => font.kerningMap.lookup
          (MakeKerningKey (exampleFace.charIndex 97) (exampleFace.charIndex 48))) =
      some none ∧
    (Font.Initialize Font.new exampleFace).map
        (fun font => font.kerningMap.lookup
          (MakeKerningKey (exampleFace.charIndex 48) (exampleFace.charIndex 97))) =
      some (some (exampleFace.kerning (exampleFace.charIndex 48) (exampleFace.charIndex 97))) := by
  decide!

/-! ### Drawing the empty text -/

/-- C9 (amended): for the empty text `Font::DrawText` returns false, and so does
`System::DrawText` whatever the state of the system and the font; no chain is rendered, no
display list is replayed or stored. -/
theorem DrawText_empty (fontSystem : System) (font : Font) (cachedFont : Option Font)
    (staticText : Bool) (newDisplayList : Nat) :
    font.DrawText fontSystem [] staticText newDisplayList =
      DrawOutcome.returned false [] none none ∧
    fontSystem.DrawText cachedFont [] staticText newDisplayList =
      DrawOutcome.returned false [] none none := by
  constructor
  · simp [Font.DrawText]
  · unfold System.DrawText
    split
    · rfl
    · cases cachedFont with
      | none => rfl
      | some f => simp [Font.DrawText]

/-- C9, counterexample: on an initialized system with an initialized font, drawing the
empty text reports failure. -/
theorem DrawText_empty_fails :
    wrapSystem.initialized = true ∧ monoFont.initialized = true ∧
    wrapSystem.DrawText (some monoFont) [] false 0 = DrawOutcome.returned false [] none none ∧
    ∀ rendered replayed stored,
      wrapSystem.DrawText (some monoFont) [] false 0 ≠
        DrawOutcome.returned true rendered replayed stored := by
  refine ⟨rfl, rfl, ?_, ?_⟩
  · simp [System.DrawText, Font.DrawText, wrapSystem]
  · intro rendered replayed stored
    simp [System.DrawText, Font.DrawText, wrapSystem]

/-! ### The configuration -/

/-- On finite values the setter with `GLfloat` members does what the setter with rational
members does. -/
theorem SetBaseLineDelta_ofSystem (s : System) (d : ℚ) :
    (GLSystem.ofSystem s).SetBaseLineDelta (GLfloat.finite d) =
      ((s.SetBaseLineDelta d).1, GLSystem.ofSystem (s.SetBaseLineDelta d).2) := by
  unfold GLSystem.SetBaseLineDelta System.SetBaseLineDelta
  by_cases h1 : d ≥ 0
  · simp [GLfloat.ge, h1]
  · by_cases h2 : -d < s.lineHeight
    · simp [GLfloat.ge, GLfloat.lt, GLfloat.neg, GLSystem.ofSystem, h1, h2]
    · simp [GLfloat.ge, GLfloat.lt, GLfloat.neg, GLSystem.ofSystem, h1, h2]

theorem baseLineDelta_not_ge_step (s : GLSystem) (call : SetterCall)
    (h : GLfloat.ge s.baseLineDelta (GLfloat.finite 0) = false) :
    GLfloat.ge (call.apply s).baseLineDelta (GLfloat.finite 0) = false := by
  cases call with
  | setBaseLineDelta v =>
    simp only [SetterCall.apply, GLSystem.SetBaseLineDelta]
    cases h1 : GLfloat.ge v (GLfloat.finite 0)
    · cases h2 : GLfloat.lt (GLfloat.neg v) s.lineHeight
      · simpa using h1
      · simpa using h
    · simpa using h
  | _ => exact h

theorem baseLineDelta_not_ge_run (calls : List SetterCall) :
    ∀ s : GLSystem, GLfloat.ge s.baseLineDelta (GLfloat.finite 0) = false →
      GLfloat.ge (runSetters s calls).baseLineDelta (GLfloat.finite 0) = false := by
  induction calls with
  | nil => intro s h; exact h
  | cons call rest ih =>
    intro s h
    exact ih (call.apply s) (baseLineDelta_not_ge_step s call h)

theorem GLfloat.lt_zero_of_not_ge (a : GLfloat) (hnan : a ≠ GLfloat.nan)
    (h : GLfloat.ge a (GLfloat.finite 0) = false) :
    GLfloat.lt a (GLfloat.finite 0) = true := by
  cases a with
  | finite value =>
    simp only [GLfloat.ge, decide_eq_false_iff_not] at h
    simp only [GLfloat.lt, decide_eq_true_eq]
    exact not_le.mp h
  | posInf => simp [GLfloat.ge] at h
  | negInf => rfl
  | nan => exact absurd rfl hnan

theorem GLSystem.passesGuards_iff (s : GLSystem) (hb : s.baseLineDelta ≠ GLfloat.nan)
    (hl : s.lineHeight ≠ GLfloat.nan) :
    s.passesGuards ↔ s.baseLineConstraint := by
  unfold GLSystem.passesGuards GLSystem.baseLineConstraint
  cases hbd : s.baseLineDelta with
  | nan => exact absurd hbd hb
  | posInf => simp [GLfloat.ge, GLfloat.lt]
  | negInf =>
    cases hlh : s.lineHeight with
    | nan => exact absurd hlh hl
    | _ => simp [GLfloat.ge, GLfloat.lt, GLfloat.neg, GLfloat.abs]
  | finite b =>
    cases hlh : s.lineHeight with
    | nan => exact absurd hlh hl
    | posInf => simp [GLfloat.ge, GLfloat.lt, GLfloat.neg, GLfloat.abs]
    | negInf =>
      simp only [GLfloat.ge, GLfloat.lt, GLfloat.neg, GLfloat.abs, decide_eq_false_iff_not,
        decide_eq_true_eq, and_true, not_le]
    | finite l =>
      simp only [GLfloat.ge, GLfloat.lt, GLfloat.neg, GLfloat.abs, decide_eq_false_iff_not,
        decide_eq_true_eq, not_le, not_lt]
      constructor
      · rintro ⟨h1, h2⟩
        exact ⟨h1, by rw [abs_of_neg h1]; exact h2⟩
      · rintro ⟨h1, h2⟩
        exact ⟨h1, by rw [abs_of_neg h1] at h2; exact h2⟩

/-- C10 (amended): the constructor state satisfies the constraint.  After every sequence
of setter calls, whatever `GLfloat` they carry, `baseLineDelta >= 0` is false, so that
`baseLineDelta` is negative unless it is a NaN.  A setter call keeps the state clear of
both guards of `SetBaseLineDelta` (`baseLineDelta >= 0`, `-baseLineDelta < lineHeight`)
unless it is a `SetLineHeight` call with `-baseLineDelta < lineHeight` for the new height;
and as long as neither member is a NaN, being clear of both guards is the constraint. -/
theorem baseLineConstraint_setters :
    GLSystem.new.baseLineConstraint ∧
    (∀ calls, GLfloat.ge (runSetters GLSystem.new calls).baseLineDelta (GLfloat.finite 0)
      = false) ∧
    (∀ calls, (runSetters GLSystem.new calls).baseLineDelta ≠ GLfloat.nan →
      GLfloat.lt (runSetters GLSystem.new calls).baseLineDelta (GLfloat.finite 0) = true) ∧
    (∀ (s : GLSystem) (call : SetterCall), s.passesGuards →
      (∀ lineHeight, call = SetterCall.setLineHeight lineHeight →
        GLfloat.lt (GLfloat.neg s.baseLineDelta) lineHeight = false) →
      (call.apply s).passesGuards) ∧
    (∀ s : GLSystem, s.baseLineDelta ≠ GLfloat.nan → s.lineHeight ≠ GLfloat.nan →
      (s.passesGuards ↔ s.baseLineConstraint)) := by
  have hnew : GLfloat.ge GLSystem.new.baseLineDelta (GLfloat.finite 0) = false := by
    simp [GLSystem.new, GLfloat.ge]
  refine ⟨?_, ?_, ?_, ?_, ?_⟩
  · unfold GLSystem.baseLineConstraint GLSystem.new
    simp only [GLfloat.lt, GLfloat.ge, GLfloat.abs, decide_eq_true_eq]
    norm_num [abs_of_neg]
  · intro calls
    exact baseLineDelta_not_ge_run calls GLSystem.new hnew
  · intro calls hnan
    exact GLfloat.lt_zero_of_not_ge _ hnan (baseLineDelta_not_ge_run calls GLSystem.new hnew)
  · intro s call hs hcall
    obtain ⟨h1, h2⟩ := hs
    cases call with
    | setLineHeight v => exact ⟨h1, hcall v rfl⟩
    | setBaseLineDelta v =>
      simp only [SetterCall.apply, GLSystem.SetBaseLineDelta, GLSystem.passesGuards]
      cases g1 : GLfloat.ge v (GLfloat.finite 0)
      · cases g2 : GLfloat.lt (GLfloat.neg v) s.lineHeight
        · simp only [Bool.false_eq_true, if_false]
          exact ⟨g1, g2⟩
        · simp only [Bool.false_eq_true, if_false, if_true]
          exact ⟨h1, h2⟩
      · simp only [if_true]
        exact ⟨h1, h2⟩
    | setLineWidth v => exact ⟨h1, h2⟩
    | setJustification v => exact ⟨h1, h2⟩
    | setWordWrap v => exact ⟨h1, h2⟩
    | setFont v => exact ⟨h1, h2⟩
  · intro s hb hl
    exact GLSystem.passesGuards_iff s hb hl

/-- C10, an instance: `SetBaseLineDelta (-12)` on the constructor state is accepted and
leaves the state clear of both guards. -/
theorem baseLineConstraint_setters_witness :
    ((SetterCall.setBaseLineDelta (GLfloat.finite (-12))).apply GLSystem.new).passesGuards ∧
    ((SetterCall.setBaseLineDelta (GLfloat.finite (-12))).apply GLSystem.new).baseLineDelta =
      GLfloat.finite (-12) :=
  ⟨baseLineConstraint_setters.2.2.2.1 GLSystem.new
     (SetterCall.setBaseLineDelta (GLfloat.finite (-12)))
     (by unfold GLSystem.passesGuards; decide!) (by intro lineHeight h; cases h),
   by decide!⟩

/-- C10, counterexample: after `SetLineHeight 10` on the constructor state
`baseLineDelta` is still `-7`, whose absolute value is below the line height 10; and after
`SetBaseLineDelta` with a NaN, which passes both guards, `baseLineDelta` is the NaN and
not negative. -/
theorem SetLineHeight_breaks_constraint :
    (runSetters GLSystem.new [SetterCall.setLineHeight (GLfloat.finite 10)]).baseLineDelta =
      GLfloat.finite (-7) ∧
    (runSetters GLSystem.new [SetterCall.setLineHeight (GLfloat.finite 10)]).lineHeight =
      GLfloat.finite 10 ∧
    ¬ (runSetters GLSystem.new
        [SetterCall.setLineHeight (GLfloat.finite 10)]).baseLineConstraint ∧
    (GLSystem.new.SetBaseLineDelta GLfloat.nan).1 = true ∧
    (runSetters GLSystem.new [SetterCall.setBaseLineDelta GLfloat.nan]).baseLineDelta =
      GLfloat.nan ∧
    ¬ (runSetters GLSystem.new
        [SetterCall.setBaseLineDelta GLfloat.nan]).baseLineConstraint := by
  unfold GLSystem.baseLineConstraint
  decide!

end FontSys
